import Mathlib

/-!
Shallow embedding of the Mothics telemetry core (track, aggregator,
communicator, preprocessors) and proofs about its documented behaviour.

Conventions used throughout:
* Python `datetime` values are modelled as abstract `Nat` ticks; every
  operation that calls `datetime.now()` receives the tick as an explicit
  `now` argument.
* Python dictionaries are modelled as association lists with
  insertion-order semantics: `dinsert` overwrites the first matching key
  in place and otherwise appends, exactly like item assignment on a dict.
* Python floats used as fractions (`trim_fraction`, the eviction
  fraction `(n-1)/n`) are modelled with exact rational arithmetic; the
  `int(...)` truncation of a non-negative product is `Int.toNat` of `⌊·⌋`.
* Fallible code returns `Except PyErr`, with one constructor per Python
  exception class that can escape the modelled fragment.
* File names produced by `Track` are always `strftime(now)` followed by a
  literal suffix, so they are modelled as a numeric stamp plus the literal
  remainder (`FName`); the regex test `-full\.chk\.json$` then becomes a
  suffix test on the literal part.
-/

namespace Mothics

/-- Python scalar values as they occur in the modelled fragment of the code:
None, int, str, and datetime objects (used as timestamps in records). -/
inductive PyVal where
  | vnone
  | vint (n : Int)
  | vstr (s : String)
  | vtime (t : Nat)
deriving DecidableEq, Repr

/-- Python exception classes that can escape the modelled code paths. -/
inductive PyErr where
  | valueError
  | attributeError
  | keyError
  | typeError
  | indexError
  | runtimeError
  | unboundLocalError
deriving DecidableEq, Repr

/-- Lookup in a Python dict modelled as an association list (first match). -/
def dlookup {α : Type} : List (String × α) → String → Option α
  | [], _ => none
  | (k, v) :: rest, key => if k = key then some v else dlookup rest key

/-- Item assignment on a Python dict: overwrite the first matching key in
place, otherwise append at the end (insertion order). -/
def dinsert {α : Type} : List (String × α) → String → α → List (String × α)
  | [], key, v => [(key, v)]
  | (k, w) :: rest, key, v =>
    if k = key then (key, v) :: rest else (k, w) :: dinsert rest key v

/-- The key list of a Python dict modelled as an association list. -/
def dkeys {α : Type} (m : List (String × α)) : List String := m.map Prod.fst

/-- Python `m.setdefault(k, dflt)`: insert the default at the end when the
key is absent; the dict after the call. -/
def pySetdefault {α : Type} (m : List (String × α)) (k : String) (dflt : α) :
    List (String × α) :=
  if (dlookup m k).isSome then m else m ++ [(k, dflt)]

/-- Python `set(a) == set(b)` on two key lists. -/
def pySetEq (a b : List String) : Bool := a.all b.contains && b.all a.contains

/-- Splitting a character list on a separator character; the result is always
non-empty and splitting the empty text yields one empty field, exactly like
Python `str.split(sep)`. -/
def splitChars (sep : Char) : List Char → List (List Char)
  | [] => [[]]
  | c :: rest =>
    if c = sep then [] :: splitChars sep rest
    else
      match splitChars sep rest with
      | [] => [[c]]
      | g :: gs => (c :: g) :: gs

/-- Python `s.split(sep)` for a one-character separator, as structural
recursion over the character data. -/
def pySplit (sep : Char) (s : String) : List String :=
  (splitChars sep s.data).map String.mk

/-- Joining fields with a separator string (Python `sep.join(fields)`). -/
def joinSep (sep : String) : List String → String
  | [] => ""
  | [x] => x
  | x :: rest => x ++ sep ++ joinSep sep rest

/-- Whether `b` is a suffix of `a`, on character data. -/
def listEndsWith (a b : List Char) : Bool :=
  decide (b.length ≤ a.length) && (a.drop (a.length - b.length) == b)

/-- Python `s.endswith(sfx)`, also used to model an end-anchored regex
search. -/
def pyEndsWith (s sfx : String) : Bool := listEndsWith s.data sfx.data

/-- Normalisation of one bound of a Python slice with step 1: `none` means the
bound was omitted and `dflt` applies; a negative index counts from the end and
is clamped at 0; a non-negative index is clamped at the length. -/
def pyBound (n : Nat) (dflt : Nat) : Option Int → Nat
  | none => dflt
  | some i => if i < 0 then ((n : Int) + i).toNat else min i.toNat n

/-- Python `l[start:stop]` with step 1 (both bounds optional, possibly
negative). -/
def pySliceList {α : Type} (l : List α) (start stop : Option Int) : List α :=
  (l.take (pyBound l.length l.length stop)).drop (pyBound l.length 0 start)

/-- One record of the Track: `DataPoint(timestamp, input_data)`. -/
structure DataPoint where
  timestamp : Nat
  input_data : List (String × PyVal)
deriving DecidableEq, Repr

/-- A file name written by Track: the `strftime("%Y%m%d-%H%M%S")` stamp plus
the literal remainder (specifier, `.chk`, extension). -/
structure FName where
  stamp : Nat
  suffix : String
deriving DecidableEq, Repr

/-- Whether a file name matches the rotation-exemption regex
`-full\.chk\.json$`.  The stamp renders as digits and dashes between digits,
so the regex can only match inside the literal suffix. -/
def isFullName (nm : FName) : Bool := pyEndsWith nm.suffix "-full.chk.json"

/-- A file persisted by Track (checkpoint or export): name, modification
time, and the sequence of data points written into it. -/
structure TrackFile where
  name : FName
  mtime : Nat
  content : List DataPoint
deriving DecidableEq, Repr

/-- Whether a persisted file carries the `-full` specifier. -/
def TrackFile.isFull (f : TrackFile) : Bool := isFullName f.name

/-- Writing a file: a file with the same path is overwritten in place,
otherwise the file is created. -/
def writeFile (fs : List TrackFile) (f : TrackFile) : List TrackFile :=
  if fs.any (fun g => g.name = f.name) then
    fs.map (fun g => if g.name = f.name then f else g)
  else fs ++ [f]

/-- Removing a file by path (`os.remove`). -/
def removeFileByName (fs : List TrackFile) (nm : FName) : List TrackFile :=
  fs.filter (fun g => g.name ≠ nm)

/-- The head of the checkpoint list after a stable sort by `mtime`: the first
file, in directory order, holding the minimal modification time. -/
def oldestFile? : List TrackFile → Option TrackFile
  | [] => none
  | f :: rest => some (rest.foldl (fun best g => if g.mtime < best.mtime then g else best) f)

/-- Track `mode` attribute values assigned anywhere in the code. -/
inductive Mode where
  | live
  | replay
deriving DecidableEq, Repr

/-- Track `save_mode` attribute values assigned anywhere in the code. -/
inductive SaveMode where
  | onDemand
  | continuous
deriving DecidableEq, Repr

/-- The `file_format` argument of `Track.save`: one of the registered keys of
`_export_methods`, an arbitrary Python callable, or anything else. -/
inductive FileFormat where
  | json
  | csv
  | gpx
  | callable
  | unknown (s : String)

/-- The extension string appended to the file name (`fname + '.' + file_format`).
For a callable the concatenation itself raises, so the value is unused. -/
def FileFormat.ext : FileFormat → String
  | .json => "json"
  | .csv => "csv"
  | .gpx => "gpx"
  | .callable => ""
  | .unknown s => s

/-- Target directory of a `Track.save` call: the track's output directory or
its `chk/` checkpoint subdirectory. -/
inductive SaveDir where
  | out
  | chk
deriving DecidableEq, Repr

/-- The in-memory state of a `Track` object together with the files it has
written.  `chk_files` models the `chk/` checkpoint subdirectory and
`out_files` the output directory. -/
structure Track where
  data_points : List DataPoint
  field_names : Option (List String)
  mode : Mode
  save_mode : SaveMode
  checkpoint_interval : Option Nat
  max_checkpoint_files : Nat
  trim_fraction : ℚ
  max_datapoints : Nat
  preprocessors : List (DataPoint → DataPoint)
  replay_index : Nat
  last_checkpoint : Option Nat
  save_interval_start : Option Int
  chk_files : List TrackFile
  out_files : List TrackFile

/-- The default value of the `save_mode` parameter of `Track.__init__`. -/
def Track.defaultSaveMode : SaveMode := .continuous

/-- `Track.__init__`: a `none` for `data_points` stands for the Python
default `None`, replaced by a fresh empty list. -/
def Track.init (data_points : Option (List DataPoint)) (field_names : Option (List String))
    (mode : Mode) (save_mode : SaveMode) (checkpoint_interval : Option Nat)
    (max_checkpoint_files : Nat) (trim_fraction : ℚ) (max_datapoints : Nat) : Track :=
  { data_points := data_points.getD []
    field_names := field_names
    mode := mode
    save_mode := save_mode
    checkpoint_interval := checkpoint_interval
    max_checkpoint_files := max_checkpoint_files
    trim_fraction := trim_fraction
    max_datapoints := max_datapoints
    preprocessors := []
    replay_index := 0
    last_checkpoint := none
    save_interval_start := none
    chk_files := []
    out_files := [] }

/-- A `Track()` constructed with every parameter left at its default
(`max_datapoints=1e5` compares exactly to the integer 100000). -/
def Track.mkDefault : Track :=
  Track.init none none .live Track.defaultSaveMode (some 30) 3 (1/2) 100000

/-- `export_to_json` restricted to its observable effect: the slice of data
points written to the file.  It never raises on the inputs `Track.save`
passes it. -/
def export_to_json (dps : List DataPoint) :
    Option (Option Int × Option Int) → Except PyErr (List DataPoint)
  | none => .ok dps
  | some (a, b) => .ok (pySliceList dps a b)

/-- `export_to_csv`: with no `field_names` argument the header is taken from
the first exported point, raising `IndexError` when the slice is empty. -/
def export_to_csv (dps : List DataPoint)
    (interval : Option (Option Int × Option Int)) : Except PyErr (List DataPoint) :=
  let out := match interval with
    | none => dps
    | some (a, b) => pySliceList dps a b
  match out with
  | [] => .error .indexError
  | _ => .ok out

/-- Whether a data point contributes a `trkpt` to a GPX export: its first key
ending in `lat` and its first key ending in `lon`/`long` both exist and hold
non-`None` values. -/
def gpxHasCoords (dp : DataPoint) : Bool :=
  let latv := (dp.input_data.find? (fun kv => pyEndsWith kv.1 "lat")).map Prod.snd
  let lonv := (dp.input_data.find?
    (fun kv => pyEndsWith kv.1 "lon" || pyEndsWith kv.1 "long")).map Prod.snd
  match latv, lonv with
  | some v1, some v2 => v1 ≠ PyVal.vnone && v2 ≠ PyVal.vnone
  | _, _ => false

/-- `export_to_gpx`: writes the sliced points that carry both coordinates. -/
def export_to_gpx (dps : List DataPoint)
    (interval : Option (Option Int × Option Int)) : Except PyErr (List DataPoint) :=
  let out := match interval with
    | none => dps
    | some (a, b) => pySliceList dps a b
  .ok (out.filter gpxHasCoords)

/-- The export dispatch of `Track.save`: pick the registered export function
by key.  An unknown format only logs `critical` and leaves the local
`export` unbound, so the later call raises `UnboundLocalError`; a callable
format makes the path concatenation `fname + '.' + file_format` raise
`TypeError` before the callable runs. -/
def exportDispatch (dps : List DataPoint) (file_format : FileFormat)
    (interval : Option (Option Int × Option Int)) : Except PyErr (List DataPoint) :=
  match file_format with
  | .json => export_to_json dps interval
  | .csv => export_to_csv dps interval
  | .gpx => export_to_gpx dps interval
  | .callable => .error .typeError
  | .unknown _ => .error .unboundLocalError

/-- The dispatch and `try` block of `Track.save`. -/
def Track.saveAttempt (t : Track) (file_format : FileFormat) (fname : Option FName)
    (dir : SaveDir) (interval : Option (Option Int × Option Int)) (now : Nat) :
    Except PyErr Track :=
  let nm := fname.getD ⟨now, ""⟩
  match exportDispatch t.data_points file_format interval with
  | .error e => .error e
  | .ok content =>
    let f : TrackFile := ⟨⟨nm.stamp, nm.suffix ++ "." ++ file_format.ext⟩, now, content⟩
    match dir with
    | .out => .ok { t with out_files := writeFile t.out_files f }
    | .chk => .ok { t with chk_files := writeFile t.chk_files f }

/-- The state reached after `Track.save` returns: the catch-all `except`
logs and swallows every failure of the attempt. -/
def Track.saveSt (t : Track) (file_format : FileFormat) (fname : Option FName)
    (dir : SaveDir) (interval : Option (Option Int × Option Int)) (now : Nat) : Track :=
  match t.saveAttempt file_format fname dir interval now with
  | .ok t' => t'
  | .error _ => t

/-- `Track.save`: thanks to the catch-all `except` around the export it
always returns normally, whatever the format. -/
def Track.save (t : Track) (file_format : FileFormat) (fname : Option FName)
    (dir : SaveDir) (interval : Option (Option Int × Option Int)) (now : Nat) :
    Except PyErr Track :=
  .ok (t.saveSt file_format fname dir interval now)

/-- `Track._remove_datapoints(start, fraction)`. -/
def Track.remove_datapoints (t : Track) (start : Int) (fraction : ℚ) : Track :=
  match t.data_points with
  | [] => t
  | _ =>
    let len := t.data_points.length
    let fraction := max 0 (min fraction 1)
    let num := (⌊(len : ℚ) * fraction⌋).toNat
    let s := (max 0 (min start ((len : Int) - 1))).toNat
    let e := min (s + num) len
    { t with data_points := t.data_points.take s ++ t.data_points.drop e }

/-- `Track.start_run`. -/
def Track.start_run (t : Track) : Track :=
  match t.save_mode with
  | .onDemand =>
    let t1 := { t with
      save_mode := SaveMode.continuous
      save_interval_start := some ((t.data_points.length : Int) - 1) }
    if ((t.data_points.length : Int) - 1) > 0 then
      t1.remove_datapoints 0 t1.trim_fraction
    else t1
  | .continuous => t

/-- The write step of `Track._save_checkpoint`: record the checkpoint time,
build the timestamp-plus-specifier file name, and save the in-run slice to
the checkpoint directory in the default json format. -/
def Track.write_checkpoint (t : Track) (now : Nat) (specifier : Option String) : Track :=
  let tw := { t with last_checkpoint := some now }
  let nm : FName := ⟨now, (match specifier with | none => "" | some s => s) ++ ".chk"⟩
  tw.saveSt .json (some nm) .chk
    (some (t.save_interval_start, some ((t.data_points.length : Int) - 1))) now

/-- The rotation step of `Track._save_checkpoint`: once the non-`-full`
checkpoint files exceed `max_checkpoint_files`, the oldest of them is
deleted. -/
def Track.rotate_checkpoints (t : Track) : Track :=
  let nonFull := t.chk_files.filter (fun f => ¬ f.isFull)
  if nonFull.length > t.max_checkpoint_files then
    match oldestFile? nonFull with
    | some f => { t with chk_files := removeFileByName t.chk_files f.name }
    | none => t
  else t

/-- Whether the checkpoint threshold test fires: no previous checkpoint, or
more than `checkpoint_interval` seconds elapsed. -/
def checkpointDue (lastChk : Option Nat) (now ci : Nat) : Bool :=
  match lastChk with
  | none => true
  | some lc => decide ((now : Int) - (lc : Int) > (ci : Int))

/-- `Track._save_checkpoint(force, specifier)`: gated on continuous mode and a
configured interval; the threshold test (or `force`) writes a timestamped
checkpoint, then rotation runs. -/
def Track.save_checkpoint (t : Track) (now : Nat) (force : Bool)
    (specifier : Option String) : Track :=
  match t.save_mode, t.checkpoint_interval with
  | .continuous, some ci =>
    (if checkpointDue t.last_checkpoint now ci || force then
      t.write_checkpoint now specifier
    else t).rotate_checkpoints
  | _, _ => t

/-- `Track.end_run`: the guard is `save_mode != 'on-demand'` (flagged in the
source as a flawed status check); it exports the slice
`[_save_interval_start, len-1)` to the default json format, deletes every
checkpoint file not carrying the `-full` specifier and resets the mode. -/
def Track.end_run (t : Track) (now : Nat) : Track :=
  match t.save_mode with
  | .onDemand => t
  | .continuous =>
    let t1 := t.saveSt .json none .out
      (some (t.save_interval_start, some ((t.data_points.length : Int) - 1))) now
    { t1 with
      chk_files := t1.chk_files.filter (fun f => f.isFull)
      save_interval_start := none
      last_checkpoint := none
      save_mode := SaveMode.onDemand }

/-- The field-consistency test of `Track.add_point`: with no `field_names`
configured no check is performed, otherwise the key sets must agree. -/
def Track.fieldsOk (t : Track) (data : List (String × PyVal)) : Bool :=
  match t.field_names with
  | none => true
  | some f => pySetEq f (dkeys data)

/-- `Track.add_point(timestamp, data)`: field-consistency check, capacity
eviction with a forced `-full` checkpoint, preprocessing, append, periodic
checkpoint.  Raises `ValueError` on a field-set mismatch. -/
def Track.add_point (t : Track) (now : Nat) (timestamp : Nat)
    (data : List (String × PyVal)) : Except PyErr Track :=
  if t.fieldsOk data then
    let t1 :=
      if t.data_points.length > t.max_datapoints then
        let tc := t.save_checkpoint now true (some "-full")
        let n : ℚ := tc.data_points.length
        tc.remove_datapoints 0 ((n - 1) / n)
      else t
    let dp := t1.preprocessors.foldl (fun p proc => proc p) ⟨timestamp, data⟩
    let t2 := { t1 with data_points := t1.data_points ++ [dp] }
    .ok (t2.save_checkpoint now false none)
  else .error .valueError

/-- `Track._get_replay_track`: raises `ValueError` when no data points are
loaded; otherwise advances the replay cursor and returns a fresh
default-constructed Track holding the prefix, together with the mutated
original. -/
def Track.get_replay_track (t : Track) : Except PyErr (Track × Track) :=
  match t.data_points with
  | [] => .error .valueError
  | _ =>
    let ri := min (t.replay_index + 1) t.data_points.length
    let mock := { Track.mkDefault with
      field_names := t.field_names
      data_points := t.data_points.take ri }
    .ok (mock, { t with replay_index := ri })

/-- `Track.get_current`: live mode returns the track itself, replay mode
delegates to the replay cursor. -/
def Track.get_current (t : Track) : Except PyErr (Track × Track) :=
  match t.mode with
  | .live => .ok (t, t)
  | .replay => t.get_replay_track

/-- The `database` getter installed by `SystemManager.initialize_webapp`:
`lambda: self.track.get_current()`, with no exception handling around it. -/
def databaseGetter (t : Track) : Except PyErr (Track × Track) := t.get_current

/-! ## Aggregator -/

/-- Sensor values carried by raw-data samples: a scalar or a 3-tuple of
Euler angles. -/
inductive SVal where
  | num (n : Int)
  | tri (a b c : Int)
deriving DecidableEq, Repr

/-- A flattened record value produced by `Aggregator.aggregate`: `None`, a
sample value, or a sample timestamp (a datetime). -/
inductive FlatVal where
  | vnone
  | val (v : SVal)
  | time (t : Nat)
deriving DecidableEq, Repr

/-- The fused raw-data view consumed by the aggregator: topic to list of
one-or-more-entry sample dicts `{timestamp: value}`. -/
abbrev RawData := List (String × List (List (Nat × SVal)))

/-- `topic.split('/')[0] + '/last_timestamp'`. -/
def lastTimestampId (topic : String) : String :=
  ((pySplit '/' topic).headD "") ++ "/last_timestamp"

/-- One iteration of the flattening loop of `Aggregator.aggregate`: the last
sample's first value becomes the topic's value and its first key the unit's
`last_timestamp`; an `IndexError` (empty sample list, or empty sample dict)
sets both entries to `None`. -/
def flattenStep (acc : List (String × FlatVal)) (p : String × List (List (Nat × SVal))) :
    List (String × FlatVal) :=
  let ltid := lastTimestampId p.1
  match p.2.getLast? with
  | none => dinsert (dinsert acc p.1 .vnone) ltid .vnone
  | some smp =>
    match smp with
    | [] => dinsert (dinsert acc p.1 .vnone) ltid .vnone
    | (ts, v) :: _ => dinsert (dinsert acc p.1 (.val v)) ltid (.time ts)

/-- The `flat_data` dict built by `Aggregator.aggregate` from the fused view. -/
def flattenRaw (raw : RawData) : List (String × FlatVal) :=
  raw.foldl flattenStep []

/-- Injection of flattened record values into Track record values, so the
flattened record can be stored through `Track.add_point`. -/
def FlatVal.toPyVal : FlatVal → PyVal
  | .vnone => .vnone
  | .val (.num n) => .vint n
  | .val (.tri a b c) => .vint (a + b + c)
  | .time t => .vtime t

/-- The flattened record as the `input_data` dict of the appended point. -/
def flatRecord (raw : RawData) : List (String × PyVal) :=
  (flattenRaw raw).map (fun kv => (kv.1, kv.2.toPyVal))

/-- `Aggregator.aggregate` with a raw-data getter: flatten the fused view and
append it to the Track; any exception is caught and logged as critical, so a
failing cycle leaves the Track unchanged.  Both `datetime.now()` calls of one
cycle are modelled by the same tick `now`. -/
def Aggregator.aggregate (db : Track) (raw : RawData) (now : Nat) : Track :=
  match db.add_point now now (flatRecord raw) with
  | .ok t => t
  | .error _ => db

/-- The attribute names an `Aggregator` instance ever carries: the fields
assigned in `__init__` and `start`, and the methods of the class body. -/
def Aggregator.attributeNames : List String :=
  ["running", "raw_data", "get_raw_data", "last_comm_time", "interval",
   "database", "logger", "thread", "aggregate", "start", "_run_loop", "stop"]

/-- The `aggregator_refresh_rate` setter installed by
`SystemManager.initialize_webapp`: `lambda interval:
self.aggregator.set_interval(interval)`.  The attribute lookup on the
Aggregator instance raises `AttributeError` when the name is not defined. -/
def aggregatorRefreshRateSetter (interval : Int) : Except PyErr Int :=
  if Aggregator.attributeNames.contains "set_interval" then .ok interval
  else .error .attributeError

/-! ## Communicator -/

/-- A kwargs dict passed to an interface constructor. -/
abbrev Kwargs := List (String × PyVal)

/-- The value attached to one interface class in an `add_interfaces` spec:
either a single kwargs dict or a list of kwargs dicts. -/
inductive IfaceSpecEntry where
  | single (kw : Kwargs)
  | many (kws : List Kwargs)

/-- The argument of `Communicator.add_interfaces`: a bare interface class
(identified by its `__name__`) or a dict from classes to kwargs. -/
inductive IfaceSpec where
  | cls (name : String)
  | table (entries : List (String × IfaceSpecEntry))

/-- An instantiated interface, recorded as its class name and the kwargs it
was constructed with. -/
abbrev Iface := String × Kwargs

/-- The inner loop body of `add_interfaces` for one kwargs dict of a list
entry: `kwarg['name']` (raising `KeyError` when absent, `TypeError` when the
later concatenation gets a non-string), duplicate keys skipped with a
warning, otherwise the interface is instantiated and registered. -/
def addOneKwargs (cls : String) (reg : List (String × Iface)) (kw : Kwargs) :
    Except PyErr (List (String × Iface)) :=
  match dlookup kw "name" with
  | none => .error .keyError
  | some PyVal.vnone =>
    if (dkeys reg).contains cls then .ok reg else .ok (reg ++ [(cls, (cls, kw))])
  | some (PyVal.vstr s) =>
    let key := cls ++ "_" ++ s
    if (dkeys reg).contains key then .ok reg else .ok (reg ++ [(key, (cls, kw))])
  | some _ => .error .typeError

/-- `Communicator.add_interfaces`: a bare class is first wrapped as
`{cls: {}}`; then each entry is processed, but only entries whose kwargs are
a list have an instantiation branch in the source, so single-dict entries
fall through the loop body untouched. -/
def add_interfaces (reg : List (String × Iface)) (spec : IfaceSpec) :
    Except PyErr (List (String × Iface)) :=
  let entries := match spec with
    | .cls c => [(c, IfaceSpecEntry.single [])]
    | .table es => es
  entries.foldlM (fun r e =>
    match e.2 with
    | .single _ => .ok r
    | .many kws => kws.foldlM (addOneKwargs e.1) r) reg

/-! ## Preprocessors -/

/-- The fused view a preprocessor transforms: topic to time-ordered list of
single-entry `{timestamp: value}` samples (each sample dict holds exactly
one pair, which the source unpacks with `(ts, val), = ts_val.items()`). -/
abbrev View := List (String × List (Nat × SVal))

/-- Watermark test: whether a sample timestamp is at or below the stored
per-topic watermark (`last_done is not None and ts <= last_done`). -/
def tsDone (ld : Option Nat) (ts : Nat) : Bool :=
  match ld with
  | none => false
  | some l => decide (ts ≤ l)

/-- Rule lookup of `UnitConversion.apply`:
`self.conversions.get(topic) or self.conversions.get(qty)`. -/
def ucRule (conv : List (String × (String × (SVal → Option SVal)))) (topic qty : String) :
    Option (String × (SVal → Option SVal)) :=
  (dlookup conv topic).orElse (fun _ => dlookup conv qty)

/-- The in-place sweep of `UnitConversion.apply`, written as structural
recursion over the sample list with the running watermark threaded through:
each sample above the watermark is overwritten with `func(val)` (kept
unchanged when `func` raises), and the watermark advances to its
timestamp. -/
def ucSweep (f : SVal → Option SVal) (ld : Option Nat) :
    List (Nat × SVal) → List (Nat × SVal) × Option Nat
  | [] => ([], ld)
  | tv :: rest =>
    if tsDone ld tv.1 then
      let r := ucSweep f ld rest
      (tv :: r.1, r.2)
    else
      let r := ucSweep f (some tv.1) rest
      ((tv.1, (f tv.2).getD tv.2) :: r.1, r.2)

/-- The source-to-destination sweep of `UnitConversion.apply`: samples above
the watermark are appended (converted, or raw when `func` raises) to the
destination list; skipped samples append nothing. -/
def ucSweepDest (f : SVal → Option SVal) (ld : Option Nat) :
    List (Nat × SVal) → List (Nat × SVal) × Option Nat
  | [] => ([], ld)
  | tv :: rest =>
    if tsDone ld tv.1 then ucSweepDest f ld rest
    else
      let r := ucSweepDest f (some tv.1) rest
      ((tv.1, (f tv.2).getD tv.2) :: r.1, r.2)

/-- One topic iteration of `UnitConversion.apply` over the snapshot of the
view's keys.  `_, _, qty = topic.split("/")` raises `ValueError` unless the
topic has exactly three segments. -/
def ucStep (conv : List (String × (String × (SVal → Option SVal))))
    (acc : View × List (String × Option Nat)) (topic : String) :
    Except PyErr (View × List (String × Option Nat)) :=
  let v := acc.1
  let ld := acc.2
  let samples := (dlookup v topic).getD []
  match pySplit '/' topic with
  | [_, _, qty] =>
    match ucRule conv topic qty with
    | none => .ok (v, ld)
    | some (dst, f) =>
      let l0 := (dlookup ld topic).join
      if dst = topic then
        let sw := ucSweep f l0 samples
        .ok (dinsert v topic sw.1, dinsert ld topic sw.2)
      else
        let v1 := pySetdefault v dst []
        let dest0 := (dlookup v1 dst).getD []
        let sw := ucSweepDest f l0 samples
        .ok (dinsert v1 dst (dest0 ++ sw.1), dinsert ld topic sw.2)
  | _ => .error .valueError

/-- The mutable state of a `UnitConversion` preprocessor. -/
structure UCState where
  conversions : List (String × (String × (SVal → Option SVal)))
  last_done : List (String × Option Nat)

/-- `UnitConversion.apply(data)`: iterate over a snapshot of the keys,
converting each topic's fresh samples and updating the per-topic
watermarks. -/
def UnitConversion.apply (st : UCState) (v : View) : Except PyErr (UCState × View) :=
  match (dkeys v).foldlM (ucStep st.conversions) (v, st.last_done) with
  | .ok r => .ok ({ st with last_done := r.2 }, r.1)
  | .error e => .error e

/-- Offsets held by an `AngleOffset` preprocessor: a scalar or a
roll/pitch/yaw triple. -/
inductive OffVal where
  | num (n : Int)
  | tri (a b c : Int)
deriving DecidableEq, Repr

/-- The mutable state of an `AngleOffset` preprocessor. -/
structure AOState where
  offsets : List (String × OffVal)
  last_ts : List (String × Option Nat)
  latest_raw : List (String × SVal)

/-- `AngleOffset._split` followed by the caller's 3-way unpacking:
`topic.split("/", 2)` yields at most three parts and the unpacking raises
`ValueError` when there are fewer; the quantity is the remainder after the
second slash. -/
def aoSplitQty (topic : String) : Option String :=
  let parts := pySplit '/' topic
  if parts.length ≥ 3 then some (joinSep "/" (parts.drop 2)) else none

/-- The last raw value a sweep stores into `_latest_raw`: successive
per-sample assignments collapse to the value of the last sample, if any. -/
def lastRaw (samples : List (Nat × SVal)) : Option SVal :=
  samples.getLast?.map Prod.snd

/-- The scalar-offset sweep of `AngleOffset.apply`: the raw value is
remembered for every sample (even below the watermark); fresh samples get
the offset added, raising `TypeError` on a non-scalar value. -/
def aoSweepNum (off : Int) (ld : Option Nat) :
    List (Nat × SVal) → Except PyErr (List (Nat × SVal) × Option Nat × Option SVal)
  | [] => .ok ([], ld, none)
  | tv :: rest =>
    if tsDone ld tv.1 then
      match aoSweepNum off ld rest with
      | .error e => .error e
      | .ok r => .ok (tv :: r.1, r.2.1, (r.2.2).orElse (fun _ => some tv.2))
    else
      match tv.2 with
      | .num n =>
        match aoSweepNum off (some tv.1) rest with
        | .error e => .error e
        | .ok r => .ok ((tv.1, SVal.num (n + off)) :: r.1, r.2.1, (r.2.2).orElse (fun _ => some tv.2))
      | .tri _ _ _ => .error .typeError

/-- The tuple-offset sweep of `AngleOffset.apply`: a failed 3-way unpacking
is swallowed (`except: pass`) but the watermark still advances. -/
def aoSweepTri (dR dP dY : Int) (ld : Option Nat) :
    List (Nat × SVal) → List (Nat × SVal) × Option Nat × Option SVal
  | [] => ([], ld, none)
  | tv :: rest =>
    if tsDone ld tv.1 then
      let r := aoSweepTri dR dP dY ld rest
      (tv :: r.1, r.2.1, (r.2.2).orElse (fun _ => some tv.2))
    else
      match tv.2 with
      | .tri r p y =>
        let q := aoSweepTri dR dP dY (some tv.1) rest
        ((tv.1, SVal.tri (r + dR) (p + dP) (y + dY)) :: q.1, q.2.1, (q.2.2).orElse (fun _ => some tv.2))
      | .num n =>
        let q := aoSweepTri dR dP dY (some tv.1) rest
        ((tv.1, SVal.num n) :: q.1, q.2.1, (q.2.2).orElse (fun _ => some tv.2))

/-- One topic iteration of `AngleOffset.apply`.  On an error the partially
mutated Python state is discarded by the model, which is sound for every
property stated about successful applications. -/
def aoStep (offsets : List (String × OffVal))
    (acc : View × List (String × Option Nat) × List (String × SVal)) (topic : String) :
    Except PyErr (View × List (String × Option Nat) × List (String × SVal)) :=
  let v := acc.1
  let ld := acc.2.1
  let lr := acc.2.2
  let samples := (dlookup v topic).getD []
  match aoSplitQty topic with
  | none => .error .valueError
  | some qty =>
    match (dlookup offsets topic).orElse (fun _ => dlookup offsets qty) with
    | none => .ok (v, ld, lr)
    | some off =>
      let l0 := (dlookup ld topic).join
      match off with
      | .num d =>
        match aoSweepNum d l0 samples with
        | .error e => .error e
        | .ok r =>
          .ok (dinsert v topic r.1, dinsert ld topic r.2.1,
               match r.2.2 with | some rv => dinsert lr topic rv | none => lr)
      | .tri a b c =>
        let r := aoSweepTri a b c l0 samples
        .ok (dinsert v topic r.1, dinsert ld topic r.2.1,
             match r.2.2 with | some rv => dinsert lr topic rv | none => lr)

/-- `AngleOffset.apply(data)`. -/
def AngleOffset.apply (st : AOState) (v : View) : Except PyErr (AOState × View) :=
  match (dkeys v).foldlM (aoStep st.offsets) (v, st.last_ts, st.latest_raw) with
  | .ok r => .ok ({ st with last_ts := r.2.1, latest_raw := r.2.2 }, r.1)
  | .error e => .error e

/-! ## Derived notions used by the statements -/

/-- A sequence of `Track.add_point` calls, each with its own clock tick,
timestamp and data dict; the first failure propagates, as in Python. -/
def Track.add_run (t : Track) :
    List (Nat × Nat × List (String × PyVal)) → Except PyErr Track
  | [] => .ok t
  | p :: rest =>
    match t.add_point p.1 p.2.1 p.2.2 with
    | .ok t1 => t1.add_run rest
    | .error e => .error e

/-- A conversion table is non-chaining on a view: whenever a rule applicable
to a view topic sends it to a different destination topic, that destination
splits into three segments and no rule applies to it.  This is the
configuration discipline under which repeated application cannot convert
freshly created destination samples a second time. -/
def UCSafe (conv : List (String × (String × (SVal → Option SVal)))) (v : View) : Prop :=
  ∀ k ∈ dkeys v, ∀ a b c, pySplit '/' k = [a, b, c] →
    ∀ dst f, ucRule conv k c = some (dst, f) → dst ≠ k →
      ∃ x y z, pySplit '/' dst = [x, y, z] ∧ ucRule conv dst z = none

/-- A topic is settled for `UnitConversion.apply`: it splits into three
segments, and if a rule applies to it then its watermark entry exists and
covers every sample currently in the view (and a foreign destination topic
already exists in the view).  A settled topic's iteration leaves view and
watermarks untouched. -/
def UCSettled (conv : List (String × (String × (SVal → Option SVal))))
    (v : View) (ld : List (String × Option Nat)) (k : String) : Prop :=
  ∃ a b c, pySplit '/' k = [a, b, c] ∧
    ∀ dst f, ucRule conv k c = some (dst, f) →
      ∃ l, dlookup ld k = some l ∧
        (∀ p ∈ (dlookup v k).getD [], tsDone l p.1 = true) ∧
        (dst ≠ k → (dlookup v dst).isSome)

/-- A topic is settled for `AngleOffset.apply`: it splits into at least three
segments, and if an offset applies to it then its watermark entry exists and
covers every sample currently in the view. -/
def AOSettled (offsets : List (String × OffVal))
    (v : View) (ld : List (String × Option Nat)) (k : String) : Prop :=
  ∃ q, aoSplitQty k = some q ∧
    ∀ off, (dlookup offsets k).orElse (fun _ => dlookup offsets q) = some off →
      ∃ l, dlookup ld k = some l ∧
        (∀ p ∈ (dlookup v k).getD [], tsDone l p.1 = true)

/-! ## Concrete instances used by witnesses and counterexamples -/

/-- An on-demand track holding three points with a capacity bound of two. -/
def overCapOnDemandTrack : Track :=
  { Track.mkDefault with
    save_mode := SaveMode.onDemand
    data_points := [⟨1, [("a", .vint 1)]⟩, ⟨2, [("a", .vint 2)]⟩, ⟨3, [("a", .vint 3)]⟩]
    max_datapoints := 2 }

/-- A continuous-mode track over capacity, with a recorded interval start. -/
def overCapContinuousTrack : Track :=
  { Track.mkDefault with
    save_mode := SaveMode.continuous
    save_interval_start := some 0
    data_points := [⟨1, [("a", .vint 1)]⟩, ⟨2, [("a", .vint 2)]⟩, ⟨3, [("a", .vint 3)]⟩]
    max_datapoints := 2 }

/-- A freshly created track switched to the on-demand saving mode, as
`SystemManager.initialize_common_components` does from its configuration. -/
def onDemandEmptyTrack : Track :=
  { Track.mkDefault with save_mode := SaveMode.onDemand }

/-- Two data points fed to the round-trip scenario. -/
def roundTripPts : List (Nat × Nat × List (String × PyVal)) :=
  [(10, 10, [("a", .vint 1)]), (11, 11, [("a", .vint 2)])]

/-- A replay-mode track with no loaded data points. -/
def emptyReplayTrack : Track :=
  { Track.mkDefault with mode := Mode.replay }

/-- A replay-mode track with one loaded data point. -/
def oneReplayTrack : Track :=
  { Track.mkDefault with mode := Mode.replay, data_points := [⟨1, [("a", .vint 1)]⟩] }

/-- A track enforcing the field set `{"a"}`. -/
def enforcedTrack : Track :=
  { Track.mkDefault with save_mode := SaveMode.onDemand, field_names := some ["a"] }

/-- The state of `enforcedTrack` after accepting its first data point. -/
def enforcedTrack1 : Track :=
  { enforcedTrack with data_points := [⟨1, [("a", .vint 1)]⟩] }

/-- A one-rule in-place unit-conversion table: metres per second to
millimetres per second on the wind-speed topic. -/
def sampleConv : List (String × (String × (SVal → Option SVal))) :=
  [("rm2/wind/speed", ("rm2/wind/speed",
    fun v => match v with | .num n => some (.num (1000 * n)) | _ => none))]

/-- A fresh unit-conversion state over `sampleConv`. -/
def sampleUCState : UCState := ⟨sampleConv, []⟩

/-- A one-topic view with a single fresh wind-speed sample. -/
def sampleUCView : View := [("rm2/wind/speed", [(1, .num 2)])]

/-- The view after one application of the sample unit conversion. -/
def sampleUCView' : View := [("rm2/wind/speed", [(1, .num 2000)])]

/-- The unit-conversion state after one application on the sample view. -/
def sampleUCState' : UCState := ⟨sampleConv, [("rm2/wind/speed", some 1)]⟩

/-- The cross-topic conversion table from the `UnitConversion` class
docstring: Celsius to Kelvin, keyed and targeted by bare quantity names. -/
def chainConv : List (String × (String × (SVal → Option SVal))) :=
  [("temp_C", ("temp_K",
    fun s => match s with | .num n => some (.num (n + 273)) | _ => none))]

/-- A fresh unit-conversion state over `chainConv`. -/
def chainUCState : UCState := ⟨chainConv, []⟩

/-- A one-topic view with a single fresh Celsius sample. -/
def chainUCView : View := [("rm1/env/temp_C", [(1, .num 20)])]

/-- The view after one application of `chainConv`: the converted sample has
been appended under the bare destination key `"temp_K"`. -/
def chainUCView' : View :=
  [("rm1/env/temp_C", [(1, .num 20)]), ("temp_K", [(1, .num 293)])]

/-- The unit-conversion state after one application on `chainUCView`. -/
def chainUCState' : UCState := ⟨chainConv, [("rm1/env/temp_C", some 1)]⟩

/-- A scalar yaw offset of ten degrees. -/
def sampleOffsets : List (String × OffVal) := [("rm1/imu/yaw", OffVal.num 10)]

/-- A fresh angle-offset state over `sampleOffsets`. -/
def sampleAOState : AOState := ⟨sampleOffsets, [], []⟩

/-- A one-topic view with a single fresh yaw sample. -/
def sampleAOView : View := [("rm1/imu/yaw", [(1, .num 5)])]

/-- The view after one application of the sample angle offset. -/
def sampleAOView' : View := [("rm1/imu/yaw", [(1, .num 15)])]

/-- The angle-offset state after one application on the sample view. -/
def sampleAOState' : AOState :=
  ⟨sampleOffsets, [("rm1/imu/yaw", some 1)], [("rm1/imu/yaw", .num 5)]⟩

/-- A fused view holding one known topic with an empty sample list. -/
def sampleEmptyRaw : RawData := [("rm1/gps/lat", [])]

/-! # Dictionary lemmas -/

lemma dlookup_dinsert_self {α : Type} (m : List (String × α)) (k : String) (v : α) :
    dlookup (dinsert m k v) k = some v := by
  induction m with
  | nil => simp [dinsert, dlookup]
  | cons p rest ih =>
    obtain ⟨a, b⟩ := p
    by_cases h : a = k
    · simp [dinsert, h, dlookup]
    · simpa [dinsert, h, dlookup] using ih

lemma dlookup_dinsert_ne {α : Type} (m : List (String × α)) (k k' : String) (v : α)
    (h : k' ≠ k) : dlookup (dinsert m k v) k' = dlookup m k' := by
  have h' : ¬ (k = k') := fun hh => h hh.symm
  induction m with
  | nil => simp [dinsert, dlookup, h']
  | cons p rest ih =>
    obtain ⟨a, b⟩ := p
    by_cases hp : a = k
    · subst hp
      simp [dinsert, dlookup, h']
    · by_cases hp' : a = k'
      · simp [dinsert, hp, dlookup, hp', h]
      · simpa [dinsert, hp, dlookup, hp'] using ih

lemma dinsert_eq_self {α : Type} (m : List (String × α)) (k : String) (v : α)
    (h : dlookup m k = some v) : dinsert m k v = m := by
  induction m with
  | nil => simp [dlookup] at h
  | cons p rest ih =>
    obtain ⟨a, b⟩ := p
    by_cases hp : a = k
    · subst hp
      simp only [dlookup, if_true, eq_self_iff_true, Option.some.injEq] at h
      simp [dinsert, h]
    · simp only [dlookup, if_neg hp] at h
      simp [dinsert, hp, ih h]

lemma dkeys_cons {α : Type} (a : String) (b : α) (rest : List (String × α)) :
    dkeys ((a, b) :: rest) = a :: dkeys rest := rfl

lemma mem_dkeys_dinsert {α : Type} (m : List (String × α)) (k x : String) (v : α)
    (h : x ∈ dkeys m) : x ∈ dkeys (dinsert m k v) := by
  induction m with
  | nil => simp [dkeys] at h
  | cons p rest ih =>
    obtain ⟨a, b⟩ := p
    rw [dkeys_cons] at h
    rcases List.mem_cons.1 h with hx | hx
    · by_cases hp : a = k
      · subst hp
        subst hx
        simp [dinsert, dkeys]
      · subst hx
        simp [dinsert, hp, dkeys_cons]
    · by_cases hp : a = k
      · subst hp
        simp only [dinsert, if_pos rfl, dkeys_cons]
        exact List.mem_cons_of_mem _ hx
      · simp only [dinsert, if_neg hp, dkeys_cons]
        exact List.mem_cons_of_mem _ (ih hx)

lemma mem_dkeys_of_dinsert {α : Type} (m : List (String × α)) (k x : String) (v : α)
    (h : x ∈ dkeys (dinsert m k v)) : x ∈ dkeys m ∨ x = k := by
  induction m with
  | nil =>
    simp only [dinsert, dkeys_cons] at h
    rcases List.mem_cons.1 h with hx | hx
    · exact Or.inr hx
    · simp [dkeys] at hx
  | cons p rest ih =>
    obtain ⟨a, b⟩ := p
    by_cases hp : a = k
    · subst hp
      simp only [dinsert, if_pos rfl, dkeys_cons] at h
      rcases List.mem_cons.1 h with hx | hx
      · exact Or.inr hx
      · exact Or.inl (by rw [dkeys_cons]; exact List.mem_cons_of_mem _ hx)
    · simp only [dinsert, if_neg hp, dkeys_cons] at h
      rcases List.mem_cons.1 h with hx | hx
      · exact Or.inl (by rw [dkeys_cons]; exact hx ▸ List.mem_cons_self _ _)
      · rcases ih hx with hm | hk
        · exact Or.inl (by rw [dkeys_cons]; exact List.mem_cons_of_mem _ hm)
        · exact Or.inr hk

lemma dkeys_dinsert_of_mem {α : Type} (m : List (String × α)) (k : String) (v : α)
    (h : k ∈ dkeys m) : dkeys (dinsert m k v) = dkeys m := by
  induction m with
  | nil => simp [dkeys] at h
  | cons p rest ih =>
    obtain ⟨a, b⟩ := p
    by_cases hp : a = k
    · subst hp
      simp [dinsert, dkeys_cons]
    · rw [dkeys_cons] at h
      rcases List.mem_cons.1 h with hx | hx
      · exact absurd hx.symm hp
      · simp only [dinsert, if_neg hp, dkeys_cons, ih hx]

lemma dlookup_isSome_of_mem {α : Type} (m : List (String × α)) (k : String)
    (h : k ∈ dkeys m) : (dlookup m k).isSome := by
  induction m with
  | nil => simp [dkeys] at h
  | cons p rest ih =>
    obtain ⟨a, b⟩ := p
    by_cases hp : a = k
    · simp [dlookup, hp]
    · rw [dkeys_cons] at h
      rcases List.mem_cons.1 h with hx | hx
      · exact absurd hx.symm hp
      · simpa [dlookup, hp] using ih hx

lemma mem_of_dlookup_isSome {α : Type} (m : List (String × α)) (k : String)
    (h : (dlookup m k).isSome) : k ∈ dkeys m := by
  induction m with
  | nil => simp [dlookup] at h
  | cons p rest ih =>
    obtain ⟨a, b⟩ := p
    by_cases hp : a = k
    · rw [dkeys_cons]
      exact hp ▸ List.mem_cons_self _ _
    · simp only [dlookup, if_neg hp] at h
      rw [dkeys_cons]
      exact List.mem_cons_of_mem _ (ih h)

lemma dlookup_append_of_mem {α : Type} (m w : List (String × α)) (k : String)
    (h : k ∈ dkeys m) : dlookup (m ++ w) k = dlookup m k := by
  induction m with
  | nil => simp [dkeys] at h
  | cons p rest ih =>
    obtain ⟨a, b⟩ := p
    by_cases hp : a = k
    · simp [dlookup, hp]
    · rw [dkeys_cons] at h
      rcases List.mem_cons.1 h with hx | hx
      · exact absurd hx.symm hp
      · simpa [dlookup, hp] using ih hx

lemma dlookup_isSome_dinsert {α : Type} (m : List (String × α)) (k x : String) (v : α)
    (h : (dlookup m x).isSome) : (dlookup (dinsert m k v) x).isSome := by
  by_cases hx : x = k
  · subst hx
    simp [dlookup_dinsert_self]
  · rw [dlookup_dinsert_ne m k x v hx]
    exact h

lemma dlookup_isSome_append {α : Type} (m w : List (String × α)) (x : String)
    (h : (dlookup m x).isSome) : (dlookup (m ++ w) x).isSome := by
  rw [dlookup_append_of_mem m w x (mem_of_dlookup_isSome m x h)]
  exact h

lemma pySetEq_iff (a b : List String) :
    pySetEq a b = true ↔ ∀ x, x ∈ a ↔ x ∈ b := by
  simp only [pySetEq, Bool.and_eq_true, List.all_eq_true, List.elem_iff]
  constructor
  · rintro ⟨h1, h2⟩ x
    exact ⟨fun hx => h1 x hx, fun hx => h2 x hx⟩
  · intro h
    exact ⟨fun x hx => (h x).1 hx, fun x hx => (h x).2 hx⟩

/-! # Track scaffolding lemmas -/

lemma saveSt_chk_shape (t : Track) (ff : FileFormat) (fname : Option FName)
    (interval : Option (Option Int × Option Int)) (now : Nat) :
    ∃ cf, t.saveSt ff fname .chk interval now = { t with chk_files := cf } := by
  unfold Track.saveSt Track.saveAttempt
  rcases exportDispatch t.data_points ff interval with e | content
  · exact ⟨t.chk_files, rfl⟩
  · exact ⟨_, rfl⟩

lemma saveSt_out_shape (t : Track) (ff : FileFormat) (fname : Option FName)
    (interval : Option (Option Int × Option Int)) (now : Nat) :
    ∃ xf, t.saveSt ff fname .out interval now = { t with out_files := xf } := by
  unfold Track.saveSt Track.saveAttempt
  rcases exportDispatch t.data_points ff interval with e | content
  · exact ⟨t.out_files, rfl⟩
  · exact ⟨_, rfl⟩

lemma write_checkpoint_shape (t : Track) (now : Nat) (specifier : Option String) :
    ∃ cf, t.write_checkpoint now specifier
      = { t with chk_files := cf, last_checkpoint := some now } := by
  unfold Track.write_checkpoint
  obtain ⟨cf, hcf⟩ := saveSt_chk_shape { t with last_checkpoint := some now } .json
    (some ⟨now, (match specifier with | none => "" | some s => s) ++ ".chk"⟩)
    (some (t.save_interval_start, some ((t.data_points.length : Int) - 1))) now
  exact ⟨cf, hcf⟩

lemma rotate_checkpoints_shape (t : Track) :
    ∃ cf, t.rotate_checkpoints = { t with chk_files := cf } := by
  unfold Track.rotate_checkpoints
  by_cases h : (t.chk_files.filter (fun f => ¬ f.isFull)).length > t.max_checkpoint_files
  · rw [if_pos h]
    rcases oldestFile? (t.chk_files.filter (fun f => ¬ f.isFull)) with _ | f
    · exact ⟨t.chk_files, rfl⟩
    · exact ⟨_, rfl⟩
  · rw [if_neg h]
    exact ⟨t.chk_files, rfl⟩

lemma save_checkpoint_shape (t : Track) (now : Nat) (force : Bool) (spec : Option String) :
    ∃ cf lc, t.save_checkpoint now force spec
      = { t with chk_files := cf, last_checkpoint := lc } := by
  obtain ⟨dps, fns, mode, sm, cint, mcf, tf, mdp, pre, ri, lc0, sis, cf0, xf0⟩ := t
  cases sm with
  | onDemand =>
    cases cint with
    | none => exact ⟨cf0, lc0, rfl⟩
    | some ci => exact ⟨cf0, lc0, rfl⟩
  | continuous =>
    cases cint with
    | none => exact ⟨cf0, lc0, rfl⟩
    | some ci =>
      simp only [Track.save_checkpoint]
      by_cases hdue : (checkpointDue lc0 now ci || force) = true
      · rw [if_pos hdue]
        obtain ⟨cf1, h1⟩ := write_checkpoint_shape
          ⟨dps, fns, mode, SaveMode.continuous, some ci, mcf, tf, mdp, pre, ri, lc0, sis, cf0, xf0⟩ now spec
        rw [h1]
        obtain ⟨cf2, h2⟩ := rotate_checkpoints_shape
          { data_points := dps, field_names := fns, mode := mode, save_mode := SaveMode.continuous,
            checkpoint_interval := some ci, max_checkpoint_files := mcf, trim_fraction := tf,
            max_datapoints := mdp, preprocessors := pre, replay_index := ri,
            last_checkpoint := some now, save_interval_start := sis, chk_files := cf1,
            out_files := xf0 }
        rw [h2]
        exact ⟨cf2, some now, rfl⟩
      · rw [if_neg hdue]
        obtain ⟨cf2, h2⟩ := rotate_checkpoints_shape
          ⟨dps, fns, mode, SaveMode.continuous, some ci, mcf, tf, mdp, pre, ri, lc0, sis, cf0, xf0⟩
        rw [h2]
        exact ⟨cf2, lc0, rfl⟩

lemma remove_datapoints_shape (t : Track) (start : Int) (fraction : ℚ) :
    ∃ dps, t.remove_datapoints start fraction = { t with data_points := dps } := by
  obtain ⟨dps, fns, mode, sm, cint, mcf, tf, mdp, pre, ri, lc0, sis, cf0, xf0⟩ := t
  cases dps with
  | nil => exact ⟨_, rfl⟩
  | cons p rest =>
    unfold Track.remove_datapoints
    exact ⟨_, rfl⟩

/-- The successful no-eviction path of `Track.add_point`: with the field
check passing, no preprocessors, and the buffer not over capacity, the call
appends the point and touches nothing else but the checkpoint bookkeeping. -/
lemma add_point_ok (t : Track) (now ts : Nat) (d : List (String × PyVal))
    (hf : t.fieldsOk d = true) (hpre : t.preprocessors = [])
    (hcap : ¬ t.data_points.length > t.max_datapoints) :
    ∃ t1 cf lc, t.add_point now ts d = .ok t1 ∧
      t1 = { t with
               data_points := t.data_points ++ [⟨ts, d⟩],
               chk_files := cf,
               last_checkpoint := lc } := by
  obtain ⟨dps, fns, mode, sm, cint, mcf, tf, mdp, pre, ri, lc0, sis, cf0, xf0⟩ := t
  have hpre' : pre = [] := hpre
  subst hpre'
  unfold Track.add_point
  rw [if_pos hf, if_neg hcap]
  obtain ⟨cf, lc, hsc⟩ := save_checkpoint_shape
    { data_points := dps ++ [⟨ts, d⟩], field_names := fns, mode := mode, save_mode := sm,
      checkpoint_interval := cint, max_checkpoint_files := mcf, trim_fraction := tf,
      max_datapoints := mdp, preprocessors := [], replay_index := ri,
      last_checkpoint := lc0, save_interval_start := sis, chk_files := cf0,
      out_files := xf0 } now false none
  exact ⟨_, cf, lc, rfl, hsc⟩

/-- Every failure of `Track.add_point` is the `ValueError` of the field
check; success forces the check to have passed. -/
lemma add_point_fieldsOk_of_ok (t t1 : Track) (now ts : Nat) (d : List (String × PyVal))
    (h : t.add_point now ts d = .ok t1) : t.fieldsOk d = true := by
  by_contra hf
  rw [Bool.not_eq_true] at hf
  unfold Track.add_point at h
  rw [if_neg (by simp [hf])] at h
  exact Except.noConfusion h

lemma add_point_error_of_fieldsOk_false (t : Track) (now ts : Nat)
    (d : List (String × PyVal)) (hf : t.fieldsOk d = false) :
    t.add_point now ts d = .error .valueError := by
  unfold Track.add_point
  rw [if_neg (by simp [hf])]

/-- `Track.add_point` never changes anything but the data points, the
checkpoint files and the checkpoint clock. -/
lemma add_point_ok_shape (t t1 : Track) (now ts : Nat) (d : List (String × PyVal))
    (h : t.add_point now ts d = .ok t1) :
    ∃ dps cf lc, t1 = { t with data_points := dps, chk_files := cf, last_checkpoint := lc } := by
  unfold Track.add_point at h
  by_cases hf : t.fieldsOk d = true
  · rw [if_pos hf] at h
    by_cases hcap : t.data_points.length > t.max_datapoints
    · rw [if_pos hcap] at h
      obtain ⟨cfa, lca, hsc⟩ := save_checkpoint_shape t now true (some "-full")
      rw [hsc] at h
      obtain ⟨dpsb, hrm⟩ := remove_datapoints_shape
        { t with chk_files := cfa, last_checkpoint := lca } 0
        ((({ t with chk_files := cfa, last_checkpoint := lca } : Track).data_points.length - 1) /
          ({ t with chk_files := cfa, last_checkpoint := lca } : Track).data_points.length)
      rw [hrm] at h
      obtain ⟨cfc, lcc, hsc2⟩ := save_checkpoint_shape
        { t with chk_files := cfa, last_checkpoint := lca, data_points :=
            dpsb ++ [({ t with chk_files := cfa, last_checkpoint := lca, data_points := dpsb } : Track).preprocessors.foldl
              (fun p proc => proc p) ⟨ts, d⟩] } now false none
      simp only at h hsc2
      rw [hsc2] at h
      exact ⟨_, _, _, (Except.ok.inj h).symm⟩
    · rw [if_neg hcap] at h
      obtain ⟨cfc, lcc, hsc2⟩ := save_checkpoint_shape
        { t with data_points :=
            t.data_points ++ [t.preprocessors.foldl (fun p proc => proc p) ⟨ts, d⟩] } now false none
      simp only at h hsc2
      rw [hsc2] at h
      exact ⟨_, _, _, (Except.ok.inj h).symm⟩
  · rw [if_neg hf] at h
    exact Except.noConfusion h

/-! # C6 — default save mode -/

/-- C6 counterexample: a Track constructed with every `__init__` parameter at
its default starts in the continuous saving state, not the on-demand state
claimed by the specification. -/
theorem track_default_save_mode_cex :
    Track.mkDefault.save_mode = SaveMode.continuous ∧
    Track.mkDefault.save_mode ≠ SaveMode.onDemand := by
  exact ⟨rfl, by decide⟩

/-- C6 amended: a Track constructed without an explicit `save_mode` argument
(so with the default value of that parameter) starts in the continuous
state, whatever the other construction arguments. -/
theorem track_default_save_mode_continuous
    (dps : Option (List DataPoint)) (fns : Option (List String)) (mode : Mode)
    (ci : Option Nat) (mcf : Nat) (tf : ℚ) (mdp : Nat) :
    (Track.init dps fns mode Track.defaultSaveMode ci mcf tf mdp).save_mode
      = SaveMode.continuous := rfl

/-! # C7 — unknown export format -/

/-- C7 counterexample: saving with the unknown format string `"xml"` (not a
registered key, not a callable) returns normally and leaves the track — in
particular its written files — unchanged, instead of failing. -/
theorem save_unknown_format_cex :
    Track.mkDefault.save (.unknown "xml") none .out none 5 = .ok Track.mkDefault := rfl

/-- C7 amended: for every track and every format that is neither a key of
the registered export methods nor a callable, `Track.save` logs a critical
error, swallows the resulting `UnboundLocalError`, returns normally and
writes no export file. -/
theorem save_unknown_format_returns_normally (t : Track) (s : String)
    (fname : Option FName) (dir : SaveDir) (interval : Option (Option Int × Option Int))
    (now : Nat) : t.save (.unknown s) fname dir interval now = .ok t := by
  cases dir with
  | out => rfl
  | chk => rfl

/-! # C5 — missing Aggregator.set_interval -/

/-- C5: the Aggregator class defines no `set_interval` attribute, so the
`aggregator_refresh_rate` setter installed by the system manager — which
calls `self.aggregator.set_interval(interval)` — fails with
`AttributeError` for every interval. -/
theorem aggregator_has_no_set_interval (interval : Int) :
    aggregatorRefreshRateSetter interval = .error .attributeError ∧
    Aggregator.attributeNames.contains "set_interval" = false := by
  exact ⟨rfl, by decide⟩

/-! # C8 — add_interfaces ignores non-list specs -/

/-- C8: `Communicator.add_interfaces` creates no interface for a bare class
spec or a class-to-single-kwargs spec (the loop body only handles the list
form), while a class-to-list spec creates one instance per kwargs dict,
keyed `<class>_<name>`, skipping duplicate keys with a warning. -/
theorem add_interfaces_nonlist_entries_ignored :
    add_interfaces [] (.cls "SerialInterface") = .ok [] ∧
    add_interfaces [] (.table [("SerialInterface", .single [("name", .vstr "usb0")])]) = .ok [] ∧
    add_interfaces []
        (.table [("MQTTInterface", .many [[("name", .vstr "a")], [("name", .vstr "a")]])])
      = .ok [("MQTTInterface_a", ("MQTTInterface", [("name", .vstr "a")]))] := by
  refine ⟨rfl, rfl, rfl⟩

/-! # C4 — the database getter and empty replay -/

/-- C4 counterexample: the `database` getter raises `ValueError` on a
replay-mode track with zero loaded data points. -/
theorem database_getter_empty_replay_cex :
    databaseGetter emptyReplayTrack = .error .valueError := rfl

/-- C4 amended: the `database` getter returns the current snapshot and does
not raise in live mode; in replay mode it succeeds exactly when at least one
data point is loaded, and raises `ValueError` when zero data points are
loaded. -/
theorem database_getter_replay_guard (t : Track) :
    (t.mode = .live → databaseGetter t = .ok (t, t)) ∧
    (t.mode = .replay → t.data_points ≠ [] → (databaseGetter t).isOk = true) ∧
    (t.mode = .replay → t.data_points = [] → databaseGetter t = .error .valueError) := by
  obtain ⟨dps, fns, mode, sm, cint, mcf, tf, mdp, pre, ri, lc0, sis, cf0, xf0⟩ := t
  refine ⟨?_, ?_, ?_⟩
  · intro h
    simp only at h
    subst h
    rfl
  · intro h hne
    simp only at h
    subst h
    cases dps with
    | nil => exact absurd rfl hne
    | cons p rest => rfl
  · intro h hemp
    simp only at h hemp
    subst h
    subst hemp
    rfl

/-- C4 witness: on a replay track holding one point the getter succeeds. -/
theorem database_getter_replay_witness : (databaseGetter oneReplayTrack).isOk = true :=
  (database_getter_replay_guard oneReplayTrack).2.1 rfl (by decide)

/-! # C3 — field consistency -/

/-- C3: once a track with field enforcement has accepted a data point,
any later `add_point` whose key set differs from that first point's key set
raises `ValueError`. -/
theorem add_point_field_consistency (t t1 : Track) (fs : List String)
    (n1 ts1 n2 ts2 : Nat) (d1 d2 : List (String × PyVal))
    (hF : t.field_names = some fs)
    (h1 : t.add_point n1 ts1 d1 = .ok t1)
    (hne : ¬ ∀ x, x ∈ dkeys d2 ↔ x ∈ dkeys d1) :
    t1.add_point n2 ts2 d2 = .error .valueError := by
  have hok1 : t.fieldsOk d1 = true := add_point_fieldsOk_of_ok t t1 n1 ts1 d1 h1
  rw [Track.fieldsOk, hF] at hok1
  have hset1 : ∀ x, x ∈ fs ↔ x ∈ dkeys d1 := (pySetEq_iff fs (dkeys d1)).1 hok1
  obtain ⟨dps, cf, lc, hshape⟩ := add_point_ok_shape t t1 n1 ts1 d1 h1
  have hfn1 : t1.field_names = some fs := by rw [hshape]; exact hF
  apply add_point_error_of_fieldsOk_false
  rw [Track.fieldsOk, hfn1]
  by_contra hb
  rw [Bool.not_eq_false] at hb
  have hset2 : ∀ x, x ∈ fs ↔ x ∈ dkeys d2 := (pySetEq_iff fs (dkeys d2)).1 hb
  exact hne (fun x => ((hset2 x).symm.trans (hset1 x)))

/-! # File-handling lemmas -/

lemma writeFile_of_fresh (fs : List TrackFile) (f : TrackFile)
    (h : ∀ g ∈ fs, g.name ≠ f.name) : writeFile fs f = fs ++ [f] := by
  unfold writeFile
  rw [if_neg]
  simp only [List.any_eq_true, decide_eq_true_eq, not_exists, not_and]
  exact fun g hg => h g hg

lemma foldl_min_mem (rest : List TrackFile) (f : TrackFile) :
    rest.foldl (fun best g => if g.mtime < best.mtime then g else best) f ∈ f :: rest := by
  induction rest generalizing f with
  | nil => simp
  | cons g l ih =>
    simp only [List.foldl_cons]
    have h := ih (if g.mtime < f.mtime then g else f)
    rcases List.mem_cons.1 h with h1 | h1
    · rw [h1]
      by_cases hc : g.mtime < f.mtime
      · rw [if_pos hc]
        exact List.mem_cons_of_mem _ (List.mem_cons_self _ _)
      · rw [if_neg hc]
        exact List.mem_cons_self _ _
    · exact List.mem_cons_of_mem _ (List.mem_cons_of_mem _ h1)

lemma oldestFile?_mem (fs : List TrackFile) (g : TrackFile)
    (h : oldestFile? fs = some g) : g ∈ fs := by
  cases fs with
  | nil => exact Option.noConfusion h
  | cons f rest =>
    unfold oldestFile? at h
    obtain rfl : rest.foldl (fun best g => if g.mtime < best.mtime then g else best) f = g :=
      Option.some.inj h
    exact foldl_min_mem rest f

lemma filter_isFull_remove (fs : List TrackFile) (nm : FName) (h : isFullName nm = false) :
    (removeFileByName fs nm).filter (fun f => f.isFull)
      = fs.filter (fun f => f.isFull) := by
  induction fs with
  | nil => rfl
  | cons g rest ih =>
    by_cases hg : g.name = nm
    · have hgf : g.isFull = false := by rw [TrackFile.isFull, hg]; exact h
      have h1 : removeFileByName (g :: rest) nm = removeFileByName rest nm := by
        unfold removeFileByName
        rw [List.filter_cons, if_neg (by simp [hg])]
      rw [h1, ih, List.filter_cons, if_neg (by simp [hgf])]
    · have h1 : removeFileByName (g :: rest) nm = g :: removeFileByName rest nm := by
        unfold removeFileByName
        rw [List.filter_cons, if_pos (by simp [hg])]
      rw [h1, List.filter_cons, List.filter_cons]
      by_cases hfull : g.isFull = true
      · rw [if_pos (by simp [hfull]), if_pos (by simp [hfull]), ih]
      · rw [Bool.not_eq_true] at hfull
        rw [if_neg (by simp [hfull]), if_neg (by simp [hfull]), ih]

lemma rotate_filter_isFull (t : Track) :
    (t.rotate_checkpoints).chk_files.filter (fun f => f.isFull)
      = t.chk_files.filter (fun f => f.isFull) := by
  unfold Track.rotate_checkpoints
  by_cases h : (t.chk_files.filter (fun f => ¬ f.isFull)).length > t.max_checkpoint_files
  · rw [if_pos h]
    rcases ho : oldestFile? (t.chk_files.filter (fun f => ¬ f.isFull)) with _ | g
    · rfl
    · have hg := oldestFile?_mem _ _ ho
      have hgf : g.isFull = false := by
        have hmem := List.of_mem_filter hg
        simpa using hmem
      have : isFullName g.name = false := hgf
      exact filter_isFull_remove t.chk_files g.name this
  · rw [if_neg h]

lemma checkpointDue_now_self (now ci : Nat) : checkpointDue (some now) now ci = false := by
  simp only [checkpointDue, sub_self, decide_eq_false_iff_not]
  exact not_lt.2 (Int.natCast_nonneg ci)

/-- The capacity-eviction arithmetic: removing the fraction `(n-1)/n` from
the start of a non-empty buffer of length `n` keeps exactly the newest
point. -/
lemma remove_datapoints_evict (t : Track) (hne : t.data_points ≠ []) :
    t.remove_datapoints 0
        (((t.data_points.length : ℚ) - 1) / (t.data_points.length : ℚ))
      = { t with data_points := t.data_points.drop (t.data_points.length - 1) } := by
  obtain ⟨dps, fns, mode, sm, cint, mcf, tf, mdp, pre, ri, lc0, sis, cf0, xf0⟩ := t
  cases dps with
  | nil => exact absurd rfl hne
  | cons p rest =>
    have hn1 : 1 ≤ (p :: rest).length := by simp
    have hnq : (0:ℚ) < ((p :: rest).length : ℚ) := by positivity
    have hq0 : (0:ℚ) ≤ (((p :: rest).length : ℚ) - 1) / ((p :: rest).length : ℚ) := by
      apply div_nonneg _ (le_of_lt hnq)
      have : (1:ℚ) ≤ ((p :: rest).length : ℚ) := by exact_mod_cast hn1
      linarith
    have hq1 : (((p :: rest).length : ℚ) - 1) / ((p :: rest).length : ℚ) ≤ 1 := by
      rw [div_le_one hnq]
      linarith
    have hclamp :
        max 0 (min ((((p :: rest).length : ℚ) - 1) / ((p :: rest).length : ℚ)) 1)
          = (((p :: rest).length : ℚ) - 1) / ((p :: rest).length : ℚ) := by
      rw [min_eq_left hq1, max_eq_right hq0]
    have hmul :
        ((p :: rest).length : ℚ) * ((((p :: rest).length : ℚ) - 1) / ((p :: rest).length : ℚ))
          = ((p :: rest).length : ℚ) - 1 := by
      field_simp
    have hfloor : ⌊((p :: rest).length : ℚ) - 1⌋ = ((p :: rest).length : ℤ) - 1 := by
      rw [show (((p :: rest).length : ℚ) - 1) = (((p :: rest).length : ℤ) - 1 : ℤ) by push_cast; ring]
      exact Int.floor_intCast _
    have hnum : (⌊((p :: rest).length : ℚ)
        * ((((p :: rest).length : ℚ) - 1) / ((p :: rest).length : ℚ))⌋).toNat
          = (p :: rest).length - 1 := by
      rw [hmul, hfloor]
      omega
    have hs : (max 0 (min (0 : ℤ) (((p :: rest).length : ℤ) - 1))).toNat = 0 := by
      omega
    unfold Track.remove_datapoints
    simp only [hclamp, hnum, hs]
    have he : min (0 + ((p :: rest).length - 1)) (p :: rest).length
        = (p :: rest).length - 1 := by omega
    simp only [he, List.take_zero, List.nil_append]

lemma save_checkpoint_on_demand (t : Track) (now : Nat) (force : Bool) (spec : Option String)
    (hmode : t.save_mode = SaveMode.onDemand) : t.save_checkpoint now force spec = t := by
  obtain ⟨dps, fns, mode, sm, cint, mcf, tf, mdp, pre, ri, lc0, sis, cf0, xf0⟩ := t
  have hsm : sm = SaveMode.onDemand := hmode
  subst hsm
  cases cint with
  | none => rfl
  | some ci => rfl

/-- C1, on-demand branch: when the buffer is over capacity but the track is
in the on-demand state, `_save_checkpoint` is gated off entirely, so the
eviction keeps only the newest prior point, the new point is appended, and
no checkpoint file at all is written. -/
lemma add_point_over_capacity_on_demand (t : Track) (now ts : Nat) (d : List (String × PyVal))
    (hf : t.fieldsOk d = true) (hpre : t.preprocessors = [])
    (hover : t.data_points.length > t.max_datapoints)
    (hmode : t.save_mode = SaveMode.onDemand) :
    t.add_point now ts d
      = .ok { t with
                data_points := t.data_points.drop (t.data_points.length - 1) ++ [⟨ts, d⟩] } := by
  have hne : t.data_points ≠ [] := by
    intro hnil
    rw [hnil] at hover
    simp at hover
  unfold Track.add_point
  rw [if_pos hf]
  simp only [if_pos hover]
  rw [save_checkpoint_on_demand t now true (some "-full") hmode]
  rw [remove_datapoints_evict t hne]
  rw [hpre]
  simp only [List.foldl_nil]
  exact congrArg Except.ok (save_checkpoint_on_demand _ now false none hmode)

/-- C1 amended: when the buffer is over capacity in continuous mode with a
configured checkpoint interval, `add_point` writes exactly one new `-full`
checkpoint holding the slice `[save_interval_start, len-1)` of the prior
points (so the newest prior point and anything before the interval start are
not in it), evicts all prior points except the newest, then appends the new
point, leaving two points in memory; no export file appears. -/
theorem add_point_over_capacity_continuous (t : Track) (now ts : Nat)
    (d : List (String × PyVal)) (ci : Nat)
    (hover : t.data_points.length > t.max_datapoints)
    (hf : t.fieldsOk d = true)
    (hpre : t.preprocessors = [])
    (hmode : t.save_mode = SaveMode.continuous)
    (hci : t.checkpoint_interval = some ci)
    (hfresh : ∀ g ∈ t.chk_files, g.name ≠ FName.mk now "-full.chk.json") :
    ∃ t', t.add_point now ts d = .ok t' ∧
      t'.chk_files.filter (fun f => f.isFull)
        = t.chk_files.filter (fun f => f.isFull)
          ++ [⟨⟨now, "-full.chk.json"⟩, now,
               pySliceList t.data_points t.save_interval_start
                 (some ((t.data_points.length : Int) - 1))⟩] ∧
      t'.data_points = t.data_points.drop (t.data_points.length - 1) ++ [⟨ts, d⟩] ∧
      t'.out_files = t.out_files ∧
      t'.save_mode = SaveMode.continuous := by
  obtain ⟨dps, fns, mode, sm, cint, mcf, tf, mdp, pre, ri, lc0, sis, cf0, xf0⟩ := t
  have hsm : sm = SaveMode.continuous := hmode
  have hp : pre = [] := hpre
  have hcint : cint = some ci := hci
  subst hsm hp hcint
  have hover2 : dps.length > mdp := hover
  have hne2 : dps ≠ [] := by
    intro hnil
    rw [hnil] at hover2
    simp at hover2
  have hfresh2 : ∀ g ∈ cf0, g.name ≠ (⟨now, "-full.chk.json"⟩ : FName) := hfresh
  have hw : writeFile cf0 (⟨⟨now, "-full.chk.json"⟩, now,
      pySliceList dps sis (some ((dps.length : Int) - 1))⟩ : TrackFile)
      = cf0 ++ [⟨⟨now, "-full.chk.json"⟩, now,
          pySliceList dps sis (some ((dps.length : Int) - 1))⟩] :=
    writeFile_of_fresh _ _ (fun g hg => hfresh2 g hg)
  have hS1 : Track.save_checkpoint
      ⟨dps, fns, mode, .continuous, some ci, mcf, tf, mdp, [], ri, lc0, sis, cf0, xf0⟩
      now true (some "-full")
      = Track.rotate_checkpoints
        ⟨dps, fns, mode, .continuous, some ci, mcf, tf, mdp, [], ri, some now, sis,
         cf0 ++ [⟨⟨now, "-full.chk.json"⟩, now,
           pySliceList dps sis (some ((dps.length : Int) - 1))⟩], xf0⟩ := by
    simp only [Track.save_checkpoint, Bool.or_true, eq_self_iff_true, if_true]
    rw [show Track.write_checkpoint
        ⟨dps, fns, mode, .continuous, some ci, mcf, tf, mdp, [], ri, lc0, sis, cf0, xf0⟩
        now (some "-full")
        = ⟨dps, fns, mode, .continuous, some ci, mcf, tf, mdp, [], ri, some now, sis,
           writeFile cf0 ⟨⟨now, "-full.chk.json"⟩, now,
             pySliceList dps sis (some ((dps.length : Int) - 1))⟩, xf0⟩ from rfl]
    rw [hw]
  obtain ⟨cf1, hrot⟩ := rotate_checkpoints_shape
    ⟨dps, fns, mode, .continuous, some ci, mcf, tf, mdp, [], ri, some now, sis,
     cf0 ++ [⟨⟨now, "-full.chk.json"⟩, now,
       pySliceList dps sis (some ((dps.length : Int) - 1))⟩], xf0⟩
  have hflt1 : cf1.filter (fun f => f.isFull)
      = cf0.filter (fun f => f.isFull)
        ++ [⟨⟨now, "-full.chk.json"⟩, now,
            pySliceList dps sis (some ((dps.length : Int) - 1))⟩] := by
    have hfi := rotate_filter_isFull
      ⟨dps, fns, mode, .continuous, some ci, mcf, tf, mdp, [], ri, some now, sis,
       cf0 ++ [⟨⟨now, "-full.chk.json"⟩, now,
         pySliceList dps sis (some ((dps.length : Int) - 1))⟩], xf0⟩
    rw [hrot] at hfi
    have hfull : (⟨⟨now, "-full.chk.json"⟩, now,
        pySliceList dps sis (some ((dps.length : Int) - 1))⟩ : TrackFile).isFull = true := rfl
    rw [List.filter_append] at hfi
    simpa [List.filter_cons, hfull] using hfi
  have hEv : Track.remove_datapoints
      ⟨dps, fns, mode, .continuous, some ci, mcf, tf, mdp, [], ri, some now, sis, cf1, xf0⟩
      0 ((((dps.length : ℚ)) - 1) / ((dps.length : ℚ)))
      = ⟨dps.drop (dps.length - 1), fns, mode, .continuous, some ci, mcf, tf, mdp, [], ri,
         some now, sis, cf1, xf0⟩ :=
    remove_datapoints_evict
      ⟨dps, fns, mode, .continuous, some ci, mcf, tf, mdp, [], ri, some now, sis, cf1, xf0⟩ hne2
  have hS4 : Track.save_checkpoint
      ⟨dps.drop (dps.length - 1) ++ [⟨ts, d⟩], fns, mode, .continuous, some ci, mcf, tf, mdp,
       [], ri, some now, sis, cf1, xf0⟩ now false none
      = Track.rotate_checkpoints
        ⟨dps.drop (dps.length - 1) ++ [⟨ts, d⟩], fns, mode, .continuous, some ci, mcf, tf, mdp,
         [], ri, some now, sis, cf1, xf0⟩ := by
    simp only [Track.save_checkpoint, checkpointDue_now_self, Bool.or_false,
      Bool.false_eq_true, if_false]
  obtain ⟨cf2, hrot2⟩ := rotate_checkpoints_shape
    ⟨dps.drop (dps.length - 1) ++ [⟨ts, d⟩], fns, mode, .continuous, some ci, mcf, tf, mdp,
     [], ri, some now, sis, cf1, xf0⟩
  have hflt2 : cf2.filter (fun f => f.isFull) = cf1.filter (fun f => f.isFull) := by
    have hfi := rotate_filter_isFull
      ⟨dps.drop (dps.length - 1) ++ [⟨ts, d⟩], fns, mode, .continuous, some ci, mcf, tf, mdp,
       [], ri, some now, sis, cf1, xf0⟩
    rw [hrot2] at hfi
    exact hfi
  have hrun : Track.add_point
      ⟨dps, fns, mode, .continuous, some ci, mcf, tf, mdp, [], ri, lc0, sis, cf0, xf0⟩
      now ts d
      = .ok ⟨dps.drop (dps.length - 1) ++ [⟨ts, d⟩], fns, mode, .continuous, some ci, mcf, tf,
          mdp, [], ri, some now, sis, cf2, xf0⟩ := by
    unfold Track.add_point
    rw [if_pos hf]
    simp only [if_pos hover]
    rw [hS1, hrot, hEv]
    simp only [List.foldl_nil]
    rw [hS4, hrot2]
  refine ⟨_, hrun, ?_, ?_, ?_, ?_⟩
  · simpa [hflt2] using hflt1
  · rfl
  · rfl
  · rfl

/-- C1 counterexample: on an on-demand track holding three points past a
capacity bound of two, `add_point` produces no `-full` checkpoint file at
all and leaves two points in memory, falsifying both halves of the claim. -/
theorem add_point_over_capacity_cex :
    overCapOnDemandTrack.data_points.length > overCapOnDemandTrack.max_datapoints ∧
    (overCapOnDemandTrack.add_point 50 50 [("a", PyVal.vint 9)]).toOption.map
        (fun t' => ((t'.chk_files.filter (fun f => f.isFull)).length, t'.data_points.length))
      = some (0, 2) := by
  constructor
  · decide
  · rw [add_point_over_capacity_on_demand overCapOnDemandTrack 50 50 [("a", PyVal.vint 9)]
      rfl rfl (by decide) rfl]
    rfl

/-- C1 witness: the amended over-capacity behaviour, instantiated on a
concrete continuous-mode track. -/
theorem add_point_over_capacity_witness :
    ∃ t', overCapContinuousTrack.add_point 50 50 [("a", PyVal.vint 9)] = .ok t' ∧
      t'.chk_files.filter (fun f => f.isFull)
        = overCapContinuousTrack.chk_files.filter (fun f => f.isFull)
          ++ [⟨⟨50, "-full.chk.json"⟩, 50,
               pySliceList overCapContinuousTrack.data_points
                 overCapContinuousTrack.save_interval_start
                 (some ((overCapContinuousTrack.data_points.length : Int) - 1))⟩] ∧
      t'.data_points = overCapContinuousTrack.data_points.drop
          (overCapContinuousTrack.data_points.length - 1) ++ [⟨50, [("a", PyVal.vint 9)]⟩] ∧
      t'.out_files = overCapContinuousTrack.out_files ∧
      t'.save_mode = SaveMode.continuous :=
  add_point_over_capacity_continuous overCapContinuousTrack 50 50 [("a", PyVal.vint 9)] 30
    (by decide) rfl rfl rfl rfl
    (by simp [overCapContinuousTrack, Track.mkDefault, Track.init])

/-! # C2 — save-mode round trip -/

lemma start_run_shape (t : Track) (h : t.save_mode = SaveMode.onDemand) :
    ∃ dps2, t.start_run
      = { t with
            save_mode := SaveMode.continuous,
            save_interval_start := some ((t.data_points.length : Int) - 1),
            data_points := dps2 } := by
  obtain ⟨dps, fns, mode, sm, cint, mcf, tf, mdp, pre, ri, lc0, sis, cf0, xf0⟩ := t
  have hsm : sm = SaveMode.onDemand := h
  subst hsm
  simp only [Track.start_run]
  by_cases hlen : ((dps.length : Int) - 1) > 0
  · rw [if_pos hlen]
    obtain ⟨dps2, hrm⟩ := remove_datapoints_shape
      ⟨dps, fns, mode, SaveMode.continuous, cint, mcf, tf, mdp, pre, ri, lc0,
       some ((dps.length : Int) - 1), cf0, xf0⟩ 0 tf
    rw [hrm]
    exact ⟨dps2, rfl⟩
  · rw [if_neg hlen]
    exact ⟨dps, rfl⟩

/-- A run of `add_point` calls that never hits the capacity bound appends
exactly the given points and changes only the checkpoint bookkeeping. -/
lemma add_run_ok (pts : List (Nat × Nat × List (String × PyVal))) :
    ∀ t : Track, t.field_names = none → t.preprocessors = [] →
      t.data_points.length + pts.length ≤ t.max_datapoints + 1 →
      ∃ t2 cf lc, t.add_run pts = .ok t2 ∧
        t2 = { t with
                 data_points := t.data_points ++ pts.map (fun p => ⟨p.2.1, p.2.2⟩),
                 chk_files := cf,
                 last_checkpoint := lc } := by
  induction pts with
  | nil =>
    intro t hf hp _
    refine ⟨t, t.chk_files, t.last_checkpoint, rfl, ?_⟩
    simp
  | cons q rest ih =>
    intro t hf hp hcap
    obtain ⟨t1, cf1, lc1, h1, hsh⟩ := add_point_ok t q.1 q.2.1 q.2.2
      (by unfold Track.fieldsOk; rw [hf]) hp
      (by simp only [List.length_cons] at hcap; omega)
    obtain ⟨t2, cf2, lc2, h2, hsh2⟩ := ih t1
      (by rw [hsh]; exact hf)
      (by rw [hsh]; exact hp)
      (by
        rw [hsh]
        show (t.data_points ++ [(⟨q.2.1, q.2.2⟩ : DataPoint)]).length + rest.length
          ≤ t.max_datapoints + 1
        simp only [List.length_append, List.length_singleton]
        simp only [List.length_cons] at hcap
        omega)
    refine ⟨t2, cf2, lc2, ?_, ?_⟩
    · show Track.add_run t (q :: rest) = .ok t2
      unfold Track.add_run
      rw [h1]
      exact h2
    · rw [hsh2, hsh]
      simp [List.append_assoc]

lemma saveSt_json_out (t : Track) (a b : Option Int) (now : Nat) :
    t.saveSt .json none .out (some (a, b)) now
      = { t with out_files := writeFile t.out_files ⟨⟨now, ".json"⟩, now, pySliceList t.data_points a b⟩ } := rfl

/-- The observable effect of `end_run` from the continuous state: one json
export of the slice `[save_interval_start, len-1)` appears, every non-full
checkpoint file is deleted, and the interval bookkeeping is reset. -/
lemma end_run_continuous (t : Track) (now : Nat)
    (hmode : t.save_mode = SaveMode.continuous)
    (hfresh : ∀ g ∈ t.out_files, g.name ≠ (⟨now, ".json"⟩ : FName)) :
    (t.end_run now).out_files
        = t.out_files ++ [⟨⟨now, ".json"⟩, now,
            pySliceList t.data_points t.save_interval_start
              (some ((t.data_points.length : Int) - 1))⟩] ∧
    (t.end_run now).chk_files = t.chk_files.filter (fun f => f.isFull) ∧
    (t.end_run now).save_mode = SaveMode.onDemand ∧
    (t.end_run now).save_interval_start = none := by
  obtain ⟨dps, fns, mode, sm, cint, mcf, tf, mdp, pre, ri, lc0, sis, cf0, xf0⟩ := t
  have hsm : sm = SaveMode.continuous := hmode
  subst hsm
  have hfresh2 : ∀ g ∈ xf0, g.name ≠ (⟨now, ".json"⟩ : FName) := hfresh
  simp only [Track.end_run]
  rw [saveSt_json_out]
  dsimp only
  rw [writeFile_of_fresh xf0 _ (fun g hg => hfresh2 g hg)]
  refine ⟨?_, ?_, ?_, ?_⟩ <;> trivial

/-- C2 amended: from the on-demand state, `start_run` records
`save_interval_start = len0 - 1` (and trims older points); adding points
buffers them; `end_run` then writes exactly one export whose content is the
Python slice `[save_interval_start, len-1)` of the final buffer — omitting
the final added point, and empty when the Track was empty at `start_run`
since the recorded start is then `-1` — deletes every checkpoint file not
carrying the full specifier, and returns the Track to on-demand. -/
theorem start_end_run_round_trip (t0 : Track)
    (pts : List (Nat × Nat × List (String × PyVal))) (now : Nat)
    (h0 : t0.save_mode = SaveMode.onDemand)
    (hfn : t0.field_names = none)
    (hpre : t0.preprocessors = [])
    (hcap : t0.start_run.data_points.length + pts.length ≤ t0.max_datapoints + 1)
    (hfresh : ∀ g ∈ t0.out_files, g.name ≠ (⟨now, ".json"⟩ : FName)) :
    ∃ t2, t0.start_run.add_run pts = .ok t2 ∧
      t2.save_interval_start = some ((t0.data_points.length : Int) - 1) ∧
      t2.data_points = t0.start_run.data_points ++ pts.map (fun p => ⟨p.2.1, p.2.2⟩) ∧
      t2.out_files = t0.out_files ∧
      (t2.end_run now).out_files
        = t0.out_files ++ [⟨⟨now, ".json"⟩, now,
            pySliceList t2.data_points t2.save_interval_start
              (some ((t2.data_points.length : Int) - 1))⟩] ∧
      (t2.end_run now).chk_files = t2.chk_files.filter (fun f => f.isFull) ∧
      (t2.end_run now).save_mode = SaveMode.onDemand ∧
      (t2.end_run now).save_interval_start = none := by
  obtain ⟨dpsS, hstart⟩ := start_run_shape t0 h0
  obtain ⟨t2, cf2, lc2, hrun, hsh2⟩ := add_run_ok pts t0.start_run
    (by rw [hstart]; exact hfn)
    (by rw [hstart]; exact hpre)
    (by rw [hstart] at hcap ⊢; exact hcap)
  have hmode2 : t2.save_mode = SaveMode.continuous := by
    rw [hsh2, hstart]
  have hsis2 : t2.save_interval_start = some ((t0.data_points.length : Int) - 1) := by
    rw [hsh2, hstart]
  have hout2 : t2.out_files = t0.out_files := by
    rw [hsh2, hstart]
  have hdp2 : t2.data_points = t0.start_run.data_points ++ pts.map (fun p => ⟨p.2.1, p.2.2⟩) := by
    rw [hsh2]
  obtain ⟨he1, he2, he3, he4⟩ := end_run_continuous t2 now hmode2
    (by rw [hout2]; exact hfresh)
  refine ⟨t2, hrun, hsis2, hdp2, hout2, ?_, he2, he3, he4⟩
  rw [he1, hout2]

/-- C2 counterexample: starting a run on an empty on-demand track, adding
two points and ending the run exports one file containing zero points — not
the two added points — because the recorded interval start is `-1` and the
export slice wraps to the end of the buffer. -/
theorem round_trip_empty_export_cex :
    roundTripPts.length = 2 ∧
    ((onDemandEmptyTrack.start_run.add_run roundTripPts).toOption.map
        (fun t2 => ((t2.end_run 20).out_files.map (fun f => f.content),
                    (t2.end_run 20).chk_files.length,
                    (t2.end_run 20).save_mode)))
      = some ([[]], 0, SaveMode.onDemand) := by
  exact ⟨rfl, rfl⟩

/-- C2 witness: the amended round trip instantiated on an initially empty
on-demand track with two added points. -/
theorem round_trip_witness :
    ∃ t2, onDemandEmptyTrack.start_run.add_run roundTripPts = .ok t2 ∧
      t2.save_interval_start = some ((onDemandEmptyTrack.data_points.length : Int) - 1) ∧
      t2.data_points = onDemandEmptyTrack.start_run.data_points
        ++ roundTripPts.map (fun p => ⟨p.2.1, p.2.2⟩) ∧
      t2.out_files = onDemandEmptyTrack.out_files ∧
      (t2.end_run 20).out_files
        = onDemandEmptyTrack.out_files ++ [⟨⟨20, ".json"⟩, 20,
            pySliceList t2.data_points t2.save_interval_start
              (some ((t2.data_points.length : Int) - 1))⟩] ∧
      (t2.end_run 20).chk_files = t2.chk_files.filter (fun f => f.isFull) ∧
      (t2.end_run 20).save_mode = SaveMode.onDemand ∧
      (t2.end_run 20).save_interval_start = none :=
  start_end_run_round_trip onDemandEmptyTrack roundTripPts 20 rfl rfl rfl
    (by decide) (by simp [onDemandEmptyTrack, Track.mkDefault, Track.init])

/-! # C10 — aggregation of topics with empty sample lists -/

lemma dlookup_flattenStep_ne (acc : List (String × FlatVal))
    (p : String × List (List (Nat × SVal))) (k : String)
    (h1 : p.1 ≠ k) (h2 : lastTimestampId p.1 ≠ k) :
    dlookup (flattenStep acc p) k = dlookup acc k := by
  obtain ⟨tp, smp⟩ := p
  simp only at h1 h2
  simp only [flattenStep]
  cases hg : smp.getLast? with
  | none => rw [dlookup_dinsert_ne _ _ _ _ (Ne.symm h2), dlookup_dinsert_ne _ _ _ _ (Ne.symm h1)]
  | some s =>
    cases s with
    | nil => rw [dlookup_dinsert_ne _ _ _ _ (Ne.symm h2), dlookup_dinsert_ne _ _ _ _ (Ne.symm h1)]
    | cons tv rest2 =>
      obtain ⟨ts, v⟩ := tv
      rw [dlookup_dinsert_ne _ _ _ _ (Ne.symm h2), dlookup_dinsert_ne _ _ _ _ (Ne.symm h1)]

lemma dlookup_flattenStep_ltid_empty (acc : List (String × FlatVal)) (tp k : String)
    (hl : lastTimestampId tp = k) :
    dlookup (flattenStep acc (tp, [])) k = some FlatVal.vnone := by
  simp only [flattenStep]
  rw [← hl]
  exact dlookup_dinsert_self _ _ _

lemma dlookup_flattenStep_topic_empty (acc : List (String × FlatVal)) (tp : String)
    (hne : lastTimestampId tp ≠ tp) :
    dlookup (flattenStep acc (tp, [])) tp = some FlatVal.vnone := by
  show dlookup (dinsert (dinsert acc tp FlatVal.vnone) (lastTimestampId tp) FlatVal.vnone) tp
    = some FlatVal.vnone
  rw [dlookup_dinsert_ne _ _ _ _ (Ne.symm hne)]
  exact dlookup_dinsert_self _ _ _

lemma flatten_fold_keeps_vnone (raw : RawData) (k : String) :
    ∀ acc, (∀ p ∈ raw, (lastTimestampId p.1 = k → p.2 = []) ∧ p.1 ≠ k) →
      dlookup acc k = some FlatVal.vnone →
      dlookup (raw.foldl flattenStep acc) k = some FlatVal.vnone := by
  induction raw with
  | nil => exact fun acc _ h => h
  | cons p rest ih =>
    intro acc hcond h
    rw [List.foldl_cons]
    apply ih _ (fun q hq => hcond q (List.mem_cons_of_mem _ hq))
    obtain ⟨h1, h2⟩ := hcond p (List.mem_cons_self _ _)
    by_cases hl : lastTimestampId p.1 = k
    · obtain ⟨tp, smp⟩ := p
      simp only at h1 hl
      rw [h1 hl]
      exact dlookup_flattenStep_ltid_empty acc tp k hl
    · rw [dlookup_flattenStep_ne acc p k h2 hl]
      exact h

lemma flatten_fold_ltid_vnone (raw : RawData) (k : String) :
    ∀ acc, (∀ p ∈ raw, (lastTimestampId p.1 = k → p.2 = []) ∧ p.1 ≠ k) →
      (∃ p ∈ raw, lastTimestampId p.1 = k) →
      dlookup (raw.foldl flattenStep acc) k = some FlatVal.vnone := by
  induction raw with
  | nil =>
    intro acc _ hex
    simp at hex
  | cons p rest ih =>
    intro acc hcond hex
    rw [List.foldl_cons]
    obtain ⟨h1, h2⟩ := hcond p (List.mem_cons_self _ _)
    by_cases hl : lastTimestampId p.1 = k
    · apply flatten_fold_keeps_vnone rest k _ (fun q hq => hcond q (List.mem_cons_of_mem _ hq))
      obtain ⟨tp, smp⟩ := p
      simp only at h1 hl
      rw [h1 hl]
      exact dlookup_flattenStep_ltid_empty acc tp k hl
    · rcases hex with ⟨q, hq, hql⟩
      rcases List.mem_cons.1 hq with heq | hq2
      · exact absurd (heq ▸ hql) hl
      · exact ih _ (fun r hr => hcond r (List.mem_cons_of_mem _ hr)) ⟨q, hq2, hql⟩

lemma flatten_fold_topic_vnone (raw : RawData) (t : String) :
    ∀ acc, (t, ([] : List (List (Nat × SVal)))) ∈ raw →
      (dkeys raw).Nodup →
      (∀ p ∈ raw, lastTimestampId p.1 ≠ t) →
      dlookup (raw.foldl flattenStep acc) t = some FlatVal.vnone := by
  induction raw with
  | nil =>
    intro acc hmem
    simp at hmem
  | cons p rest ih =>
    intro acc hmem hnd hsep
    rw [List.foldl_cons]
    rcases List.mem_cons.1 hmem with heq | hmem2
    · subst heq
      apply flatten_fold_keeps_vnone rest t _
        (fun q hq => ⟨fun hql => absurd hql (hsep q (List.mem_cons_of_mem _ hq)),
          by
            rw [dkeys_cons] at hnd
            intro hq1
            exact (List.nodup_cons.1 hnd).1 (hq1 ▸ List.mem_map_of_mem Prod.fst hq)⟩)
      exact dlookup_flattenStep_topic_empty acc t (hsep _ (List.mem_cons_self _ _))
    · have hp1 : p.1 ≠ t := by
        rw [dkeys_cons] at hnd
        intro hq1
        exact (List.nodup_cons.1 hnd).1
          (hq1 ▸ List.mem_map_of_mem Prod.fst hmem2)
      exact ih _ hmem2 (by
          obtain ⟨a, b⟩ := p
          rw [dkeys_cons] at hnd
          exact (List.nodup_cons.1 hnd).2)
        (fun q hq => hsep q (List.mem_cons_of_mem _ hq))

/-- C10: every topic of the fused view with an empty sample list is still
included in the flattened record, with both its own entry and its unit's
`last_timestamp` entry set to `None`, and the record is appended to the
Track by `aggregate`.  The separation hypotheses say that no view topic
collides with a `last_timestamp` pseudo-key and that no other topic of the
same unit carries samples (otherwise it would overwrite the unit's
`last_timestamp`). -/
theorem aggregate_includes_empty_topic (raw : RawData) (t : String) (db : Track) (now : Nat)
    (hmem : (t, ([] : List (List (Nat × SVal)))) ∈ raw)
    (hnd : (dkeys raw).Nodup)
    (hsep : ∀ p ∈ raw, p.1 ≠ lastTimestampId t ∧ lastTimestampId p.1 ≠ t)
    (hunit : ∀ p ∈ raw, lastTimestampId p.1 = lastTimestampId t → p.2 = [])
    (hdb : db.field_names = none) (hpre : db.preprocessors = [])
    (hcap : ¬ db.data_points.length > db.max_datapoints) :
    dlookup (flattenRaw raw) t = some FlatVal.vnone ∧
    dlookup (flattenRaw raw) (lastTimestampId t) = some FlatVal.vnone ∧
    (Aggregator.aggregate db raw now).data_points.getLast?
      = some ⟨now, flatRecord raw⟩ := by
  refine ⟨?_, ?_, ?_⟩
  · exact flatten_fold_topic_vnone raw t [] hmem hnd (fun p hp => (hsep p hp).2)
  · exact flatten_fold_ltid_vnone raw (lastTimestampId t) []
      (fun p hp => ⟨fun hq => hunit p hp hq, (hsep p hp).1⟩)
      ⟨(t, []), hmem, rfl⟩
  · obtain ⟨t1, cf, lc, hok, hsh⟩ := add_point_ok db now now (flatRecord raw)
      (by unfold Track.fieldsOk; rw [hdb]) hpre hcap
    unfold Aggregator.aggregate
    rw [hok, hsh]
    show (db.data_points ++ [(⟨now, flatRecord raw⟩ : DataPoint)]).getLast? = _
    simp

/-- C10 witness: a one-topic view with an empty sample list flattens to
`None` values for the topic and its unit timestamp, and one aggregation
cycle appends that record. -/
theorem aggregate_includes_empty_topic_witness :
    dlookup (flattenRaw sampleEmptyRaw) "rm1/gps/lat" = some FlatVal.vnone ∧
    dlookup (flattenRaw sampleEmptyRaw) (lastTimestampId "rm1/gps/lat")
      = some FlatVal.vnone ∧
    (Aggregator.aggregate Track.mkDefault sampleEmptyRaw 7).data_points.getLast?
      = some ⟨7, flatRecord sampleEmptyRaw⟩ :=
  aggregate_includes_empty_topic sampleEmptyRaw "rm1/gps/lat" Track.mkDefault 7
    (by decide) (by decide) (by decide) (by decide) rfl rfl (by decide)

/-! # C9 — preprocessor idempotence: sweep lemmas -/

lemma dlookup_append_right {α : Type} (m w : List (String × α)) (k : String)
    (h : dlookup m k = none) : dlookup (m ++ w) k = dlookup w k := by
  induction m with
  | nil => rfl
  | cons p rest ih =>
    obtain ⟨a, b⟩ := p
    by_cases hp : a = k
    · simp [dlookup, hp] at h
    · simp only [dlookup, if_neg hp] at h
      simpa [dlookup, hp] using ih h

lemma dlookup_pySetdefault_self {α : Type} (m : List (String × α)) (k : String) (d : α) :
    dlookup (pySetdefault m k d) k = some ((dlookup m k).getD d) := by
  unfold pySetdefault
  cases hm : dlookup m k with
  | none =>
    rw [if_neg (by simp [hm]), dlookup_append_right m _ k hm]
    simp [dlookup]
  | some x =>
    rw [if_pos (by simp [hm]), hm]
    rfl

lemma tsDone_mono (l : Option Nat) (t x : Nat) (hnd : tsDone l t = false)
    (hx : tsDone l x = true) : tsDone (some t) x = true := by
  cases l with
  | none => simp [tsDone] at hx
  | some l0 =>
    simp only [tsDone, decide_eq_true_eq, decide_eq_false_iff_not] at hx hnd ⊢
    omega

lemma ucSweep_fst (f : SVal → Option SVal) (l : Option Nat) (s : List (Nat × SVal)) :
    ((ucSweep f l s).1).map Prod.fst = s.map Prod.fst := by
  induction s generalizing l with
  | nil => rfl
  | cons tv rest ih =>
    unfold ucSweep
    by_cases h : tsDone l tv.1 = true
    · rw [if_pos h]
      simp [ih]
    · rw [if_neg h]
      simp [ih]

lemma ucSweep_done_mono (f : SVal → Option SVal) (l : Option Nat) (s : List (Nat × SVal))
    (x : Nat) (hx : tsDone l x = true) : tsDone (ucSweep f l s).2 x = true := by
  induction s generalizing l with
  | nil => exact hx
  | cons tv rest ih =>
    unfold ucSweep
    by_cases h : tsDone l tv.1 = true
    · rw [if_pos h]
      exact ih l hx
    · rw [if_neg h]
      exact ih (some tv.1) (tsDone_mono l tv.1 x (by simpa using h) hx)

lemma ucSweep_covers (f : SVal → Option SVal) (l : Option Nat) (s : List (Nat × SVal)) :
    ∀ p ∈ s, tsDone (ucSweep f l s).2 p.1 = true := by
  induction s generalizing l with
  | nil => intro p hp; simp at hp
  | cons tv rest ih =>
    intro p hp
    unfold ucSweep
    rcases List.mem_cons.1 hp with rfl | hp2
    · by_cases h : tsDone l p.1 = true
      · rw [if_pos h]
        exact ucSweep_done_mono f l rest p.1 h
      · rw [if_neg h]
        exact ucSweep_done_mono f (some p.1) rest p.1 (by simp [tsDone])
    · by_cases h : tsDone l tv.1 = true
      · rw [if_pos h]
        exact ih l p hp2
      · rw [if_neg h]
        exact ih (some tv.1) p hp2

lemma ucSweep_skip_all (f : SVal → Option SVal) (l : Option Nat) (s : List (Nat × SVal))
    (h : ∀ p ∈ s, tsDone l p.1 = true) : ucSweep f l s = (s, l) := by
  induction s with
  | nil => rfl
  | cons tv rest ih =>
    unfold ucSweep
    rw [if_pos (h tv (List.mem_cons_self _ _))]
    rw [ih (fun p hp => h p (List.mem_cons_of_mem _ hp))]

lemma ucSweepDest_done_mono (f : SVal → Option SVal) (l : Option Nat) (s : List (Nat × SVal))
    (x : Nat) (hx : tsDone l x = true) : tsDone (ucSweepDest f l s).2 x = true := by
  induction s generalizing l with
  | nil => exact hx
  | cons tv rest ih =>
    unfold ucSweepDest
    by_cases h : tsDone l tv.1 = true
    · rw [if_pos h]
      exact ih l hx
    · rw [if_neg h]
      exact ih (some tv.1) (tsDone_mono l tv.1 x (by simpa using h) hx)

lemma ucSweepDest_covers (f : SVal → Option SVal) (l : Option Nat) (s : List (Nat × SVal)) :
    ∀ p ∈ s, tsDone (ucSweepDest f l s).2 p.1 = true := by
  induction s generalizing l with
  | nil => intro p hp; simp at hp
  | cons tv rest ih =>
    intro p hp
    unfold ucSweepDest
    rcases List.mem_cons.1 hp with rfl | hp2
    · by_cases h : tsDone l p.1 = true
      · rw [if_pos h]
        exact ucSweepDest_done_mono f l rest p.1 h
      · rw [if_neg h]
        exact ucSweepDest_done_mono f (some p.1) rest p.1 (by simp [tsDone])
    · by_cases h : tsDone l tv.1 = true
      · rw [if_pos h]
        exact ih l p hp2
      · rw [if_neg h]
        exact ih (some tv.1) p hp2

lemma ucSweepDest_skip_all (f : SVal → Option SVal) (l : Option Nat) (s : List (Nat × SVal))
    (h : ∀ p ∈ s, tsDone l p.1 = true) : ucSweepDest f l s = ([], l) := by
  induction s with
  | nil => rfl
  | cons tv rest ih =>
    unfold ucSweepDest
    rw [if_pos (h tv (List.mem_cons_self _ _))]
    exact ih (fun p hp => h p (List.mem_cons_of_mem _ hp))

lemma dlookup_append_single_ne {α : Type} (m : List (String × α)) (k k' : String) (d : α)
    (h : k' ≠ k) : dlookup (m ++ [(k, d)]) k' = dlookup m k' := by
  cases hmk : dlookup m k' with
  | none =>
    rw [dlookup_append_right m _ k' hmk]
    simp only [dlookup]
    rw [if_neg (fun hh : k = k' => h hh.symm)]
  | some x =>
    rw [dlookup_append_of_mem m _ k' (mem_of_dlookup_isSome m k' (by simp [hmk]))]
    exact hmk

lemma dlookup_pySetdefault_ne {α : Type} (m : List (String × α)) (k k' : String) (d : α)
    (h : k' ≠ k) : dlookup (pySetdefault m k d) k' = dlookup m k' := by
  unfold pySetdefault
  by_cases hm : (dlookup m k).isSome
  · rw [if_pos hm]
  · rw [if_neg hm]
    exact dlookup_append_single_ne m k k' d h

lemma dkeys_append {α : Type} (m w : List (String × α)) :
    dkeys (m ++ w) = dkeys m ++ dkeys w := List.map_append _ _ _

lemma mem_dkeys_pySetdefault {α : Type} (m : List (String × α)) (k x : String) (d : α)
    (hx : x ∈ dkeys m) : x ∈ dkeys (pySetdefault m k d) := by
  unfold pySetdefault
  by_cases hm : (dlookup m k).isSome
  · rw [if_pos hm]; exact hx
  · rw [if_neg hm, dkeys_append]
    exact List.mem_append_left _ hx

lemma mem_dkeys_of_pySetdefault {α : Type} (m : List (String × α)) (k x : String) (d : α)
    (hx : x ∈ dkeys (pySetdefault m k d)) : x ∈ dkeys m ∨ x = k := by
  unfold pySetdefault at hx
  by_cases hm : (dlookup m k).isSome
  · rw [if_pos hm] at hx; exact Or.inl hx
  · rw [if_neg hm, dkeys_append] at hx
    rcases List.mem_append.1 hx with h1 | h1
    · exact Or.inl h1
    · simp [dkeys] at h1
      exact Or.inr h1

lemma dlookup_isSome_pySetdefault {α : Type} (m : List (String × α)) (k x : String) (d : α)
    (hx : (dlookup m x).isSome) : (dlookup (pySetdefault m k d) x).isSome := by
  by_cases hk : x = k
  · subst hk
    rw [dlookup_pySetdefault_self]
    rfl
  · rw [dlookup_pySetdefault_ne m k x d hk]
    exact hx

/-- The exhaustive outcome analysis of one successful `ucStep`: the topic
split into three segments, and either no rule applied, an in-place rule
swept the topic's samples, or a foreign-destination rule appended the
converted fresh samples to the destination. -/
lemma ucStep_ok_cases (conv : List (String × (String × (SVal → Option SVal))))
    (v : View) (ld : List (String × Option Nat)) (k0 : String)
    (res : View × List (String × Option Nat))
    (h : ucStep conv (v, ld) k0 = .ok res) :
    ∃ a b c, pySplit '/' k0 = [a, b, c] ∧
      ((ucRule conv k0 c = none ∧ res = (v, ld)) ∨
       (∃ f, ucRule conv k0 c = some (k0, f) ∧
          res = (dinsert v k0 (ucSweep f ((dlookup ld k0).join) ((dlookup v k0).getD [])).1,
                 dinsert ld k0 (ucSweep f ((dlookup ld k0).join) ((dlookup v k0).getD [])).2)) ∨
       (∃ dst f, ucRule conv k0 c = some (dst, f) ∧ dst ≠ k0 ∧
          res = (dinsert (pySetdefault v dst []) dst
                   (((dlookup (pySetdefault v dst []) dst).getD [])
                     ++ (ucSweepDest f ((dlookup ld k0).join) ((dlookup v k0).getD [])).1),
                 dinsert ld k0
                   (ucSweepDest f ((dlookup ld k0).join) ((dlookup v k0).getD [])).2))) := by
  simp only [ucStep] at h
  split at h
  · rename_i a b c hsp
    refine ⟨a, b, c, hsp, ?_⟩
    split at h
    · exact Or.inl ⟨by assumption, (Except.ok.inj h).symm⟩
    · rename_i r dst f hr
      split at h
      · rename_i hdk
        subst hdk
        exact Or.inr (Or.inl ⟨f, hr, (Except.ok.inj h).symm⟩)
      · rename_i hdk
        exact Or.inr (Or.inr ⟨dst, f, hr, hdk, (Except.ok.inj h).symm⟩)
  · exact Except.noConfusion h

lemma option_join_some {α : Type} (a : Option α) : (some a).join = a := rfl

lemma ucStep_ok_of_split (conv : List (String × (String × (SVal → Option SVal))))
    (v : View) (ld : List (String × Option Nat)) (k a b c : String)
    (hsp : pySplit '/' k = [a, b, c]) :
    ∃ res, ucStep conv (v, ld) k = .ok res := by
  cases hr : ucRule conv k c with
  | none =>
    simp only [ucStep, hsp, hr]
    exact ⟨_, rfl⟩
  | some r =>
    obtain ⟨dst, f⟩ := r
    by_cases hdk : dst = k
    · simp only [ucStep, hsp, hr, if_pos hdk]
      exact ⟨_, rfl⟩
    · simp only [ucStep, hsp, hr, if_neg hdk]
      exact ⟨_, rfl⟩

/-- A settled topic's iteration leaves the view and the watermarks exactly
as they were. -/
lemma ucStep_of_settled (conv : List (String × (String × (SVal → Option SVal))))
    (v : View) (ld : List (String × Option Nat)) (k : String)
    (hk : k ∈ dkeys v) (hs : UCSettled conv v ld k) :
    ucStep conv (v, ld) k = .ok (v, ld) := by
  obtain ⟨a, b, c, hsplit, hrule⟩ := hs
  obtain ⟨res, hres⟩ := ucStep_ok_of_split conv v ld k a b c hsplit
  obtain ⟨a', b', c', hsp', hcases⟩ := ucStep_ok_cases conv v ld k res hres
  rw [hsplit] at hsp'
  injection hsp' with h1 h23
  injection h23 with h2 h33
  injection h33 with h3 _
  subst h1
  subst h2
  subst h3
  rcases hcases with ⟨hr, hres2⟩ | ⟨f, hr, hres2⟩ | ⟨dst, f, hr, hdk, hres2⟩
  · rw [hres, hres2]
  · obtain ⟨l, hld, hcov, _⟩ := hrule k f hr
    obtain ⟨s0, hs0⟩ := Option.isSome_iff_exists.1 (dlookup_isSome_of_mem v k hk)
    rw [hres, hres2, hld, hs0, option_join_some, Option.getD_some]
    rw [ucSweep_skip_all f l s0 (by rw [hs0] at hcov; exact hcov)]
    dsimp only
    rw [dinsert_eq_self v k s0 hs0, dinsert_eq_self ld k l hld]
  · obtain ⟨l, hld, hcov, hdst⟩ := hrule dst f hr
    have hsome : (dlookup v dst).isSome := hdst hdk
    obtain ⟨d0, hd0⟩ := Option.isSome_iff_exists.1 hsome
    have hsd : pySetdefault v dst ([] : List (Nat × SVal)) = v := by
      unfold pySetdefault
      rw [if_pos hsome]
    rw [hres, hres2, hld, option_join_some, hsd, hd0, Option.getD_some]
    rw [ucSweepDest_skip_all f l _ hcov]
    dsimp only
    rw [List.append_nil]
    rw [dinsert_eq_self v dst d0 hd0, dinsert_eq_self ld k l hld]

/-- After a successful iteration, the topic just processed is settled. -/
lemma ucStep_settles_self (conv : List (String × (String × (SVal → Option SVal))))
    (v : View) (ld : List (String × Option Nat)) (k : String)
    (res : View × List (String × Option Nat))
    (h : ucStep conv (v, ld) k = .ok res) :
    UCSettled conv res.1 res.2 k := by
  obtain ⟨a, b, c, hsp, hcases⟩ := ucStep_ok_cases conv v ld k res h
  refine ⟨a, b, c, hsp, ?_⟩
  rcases hcases with ⟨hr, hres⟩ | ⟨f, hr, hres⟩ | ⟨dst, f, hr, hdk, hres⟩
  · intro dst' f' hr'
    rw [hr] at hr'
    exact Option.noConfusion hr'
  · subst hres
    intro dst' f' hr'
    dsimp only
    refine ⟨(ucSweep f ((dlookup ld k).join) ((dlookup v k).getD [])).2,
      dlookup_dinsert_self _ _ _, ?_, ?_⟩
    · rw [dlookup_dinsert_self, Option.getD_some]
      intro p hp
      have hmem : p.1 ∈ ((ucSweep f ((dlookup ld k).join) ((dlookup v k).getD [])).1).map
          Prod.fst := List.mem_map_of_mem _ hp
      rw [ucSweep_fst] at hmem
      obtain ⟨q, hq, hq1⟩ := List.mem_map.1 hmem
      rw [← hq1]
      exact ucSweep_covers f _ _ q hq
    · intro hne
      have : dst' = k := by
        rw [hr] at hr'
        have := Option.some.inj hr'
        exact (congrArg Prod.fst this).symm
      exact absurd this hne
  · subst hres
    intro dst' f' hr'
    have hdst' : dst' = dst := by
      rw [hr] at hr'
      have := Option.some.inj hr'
      exact (congrArg Prod.fst this).symm
    dsimp only
    refine ⟨(ucSweepDest f ((dlookup ld k).join) ((dlookup v k).getD [])).2,
      dlookup_dinsert_self _ _ _, ?_, ?_⟩
    · rw [dlookup_dinsert_ne _ dst k _ (fun hh => hdk hh.symm),
        dlookup_pySetdefault_ne v dst k _ (fun hh => hdk hh.symm)]
      intro p hp
      exact ucSweepDest_covers f _ _ p hp
    · intro _
      rw [hdst', dlookup_dinsert_self]
      rfl

lemma ucStep_keys_mono (conv : List (String × (String × (SVal → Option SVal))))
    (v : View) (ld : List (String × Option Nat)) (k0 : String)
    (res : View × List (String × Option Nat))
    (h : ucStep conv (v, ld) k0 = .ok res) :
    ∀ x ∈ dkeys v, x ∈ dkeys res.1 := by
  obtain ⟨a, b, c, hsp, hcases⟩ := ucStep_ok_cases conv v ld k0 res h
  rcases hcases with ⟨hr, hres⟩ | ⟨f, hr, hres⟩ | ⟨dst, f, hr, hdk, hres⟩ <;> subst hres
  · exact fun x hx => hx
  · exact fun x hx => mem_dkeys_dinsert v k0 x _ hx
  · exact fun x hx => mem_dkeys_dinsert _ dst x _ (mem_dkeys_pySetdefault v dst x _ hx)

lemma ucStep_keys_new (conv : List (String × (String × (SVal → Option SVal))))
    (v : View) (ld : List (String × Option Nat)) (k0 : String)
    (res : View × List (String × Option Nat))
    (h : ucStep conv (v, ld) k0 = .ok res) :
    ∀ x ∈ dkeys res.1, x ∈ dkeys v ∨ x = k0 ∨
      ∃ a b c dst f, pySplit '/' k0 = [a, b, c] ∧ ucRule conv k0 c = some (dst, f) ∧
        dst ≠ k0 ∧ x = dst := by
  obtain ⟨a, b, c, hsp, hcases⟩ := ucStep_ok_cases conv v ld k0 res h
  rcases hcases with ⟨hr, hres⟩ | ⟨f, hr, hres⟩ | ⟨dst, f, hr, hdk, hres⟩ <;> subst hres
  · exact fun x hx => Or.inl hx
  · intro x hx
    rcases mem_dkeys_of_dinsert _ _ _ _ hx with h1 | h1
    · exact Or.inl h1
    · exact Or.inr (Or.inl h1)
  · intro x hx
    rcases mem_dkeys_of_dinsert _ _ _ _ hx with h1 | h1
    · rcases mem_dkeys_of_pySetdefault _ _ _ _ h1 with h2 | h2
      · exact Or.inl h2
      · exact Or.inr (Or.inr ⟨a, b, c, dst, f, hsp, hr, hdk, h2⟩)
    · exact Or.inr (Or.inr ⟨a, b, c, dst, f, hsp, hr, hdk, h1⟩)

/-- Settledness of other topics survives one iteration, given the
non-chaining safety condition for the processed topic. -/
lemma ucStep_preserves_settled (conv : List (String × (String × (SVal → Option SVal))))
    (v : View) (ld : List (String × Option Nat)) (k0 : String)
    (res : View × List (String × Option Nat)) (j : String)
    (h : ucStep conv (v, ld) k0 = .ok res)
    (hjk : j ≠ k0)
    (hsafe : ∀ a b c, pySplit '/' k0 = [a, b, c] →
      ∀ dst f, ucRule conv k0 c = some (dst, f) → dst ≠ k0 →
        ∃ x y z, pySplit '/' dst = [x, y, z] ∧ ucRule conv dst z = none)
    (hs : UCSettled conv v ld j) :
    UCSettled conv res.1 res.2 j := by
  obtain ⟨a, b, c, hsp, hcases⟩ := ucStep_ok_cases conv v ld k0 res h
  obtain ⟨aj, bj, cj, hspj, hrulej⟩ := hs
  rcases hcases with ⟨hr, hres⟩ | ⟨f, hr, hres⟩ | ⟨dst, f, hr, hdk, hres⟩
  · subst hres
    exact ⟨aj, bj, cj, hspj, hrulej⟩
  · subst hres
    refine ⟨aj, bj, cj, hspj, ?_⟩
    intro dstj fj hrj
    obtain ⟨l, hld, hcov, hdst⟩ := hrulej dstj fj hrj
    dsimp only
    refine ⟨l, ?_, ?_, ?_⟩
    · rw [dlookup_dinsert_ne ld k0 j _ hjk]
      exact hld
    · rw [dlookup_dinsert_ne v k0 j _ hjk]
      exact hcov
    · intro hne
      exact dlookup_isSome_dinsert v k0 dstj _ (hdst hne)
  · by_cases hjd : j = dst
    · subst hjd
      obtain ⟨x, y, z, hspd, hrd⟩ := hsafe a b c hsp j f hr hdk
      subst hres
      refine ⟨x, y, z, hspd, ?_⟩
      intro dst' f' hr'
      rw [hrd] at hr'
      exact Option.noConfusion hr'
    · subst hres
      refine ⟨aj, bj, cj, hspj, ?_⟩
      intro dstj fj hrj
      obtain ⟨l, hld, hcov, hdst⟩ := hrulej dstj fj hrj
      dsimp only
      refine ⟨l, ?_, ?_, ?_⟩
      · rw [dlookup_dinsert_ne ld k0 j _ hjk]
        exact hld
      · rw [dlookup_dinsert_ne _ dst j _ hjd,
          dlookup_pySetdefault_ne v dst j _ hjd]
        exact hcov
      · intro hne
        exact dlookup_isSome_dinsert _ dst dstj _
          (dlookup_isSome_pySetdefault v dst dstj _ (hdst hne))

lemma foldlM_ucStep_id (conv : List (String × (String × (SVal → Option SVal))))
    (v : View) (ld : List (String × Option Nat)) (ks : List String)
    (h : ∀ k ∈ ks, ucStep conv (v, ld) k = .ok (v, ld)) :
    ks.foldlM (ucStep conv) (v, ld) = .ok (v, ld) := by
  induction ks with
  | nil => rfl
  | cons k rest ih =>
    rw [List.foldlM_cons, h k (List.mem_cons_self _ _)]
    simpa [Bind.bind, Except.bind] using ih (fun q hq => h q (List.mem_cons_of_mem _ hq))

/-- The per-topic invariant carried through the first application: every key
of the resulting view is settled. -/
lemma uc_fold_invariant (conv : List (String × (String × (SVal → Option SVal)))) :
    ∀ (ks : List String) (v : View) (ld : List (String × Option Nat))
      (res : View × List (String × Option Nat)),
      (∀ k ∈ ks, k ∈ dkeys v) →
      (∀ k ∈ ks, ∀ a b c, pySplit '/' k = [a, b, c] →
        ∀ dst f, ucRule conv k c = some (dst, f) → dst ≠ k →
          ∃ x y z, pySplit '/' dst = [x, y, z] ∧ ucRule conv dst z = none) →
      (∀ k ∈ dkeys v, UCSettled conv v ld k ∨ k ∈ ks) →
      ks.foldlM (ucStep conv) (v, ld) = .ok res →
      ∀ k ∈ dkeys res.1, UCSettled conv res.1 res.2 k := by
  intro ks
  induction ks with
  | nil =>
    intro v ld res _ _ hset hfold k hk
    have hres : Except.ok (v, ld) = Except.ok res := hfold
    obtain rfl : (v, ld) = res := Except.ok.inj hres
    rcases hset k hk with hsett | habs
    · exact hsett
    · simp at habs
  | cons k0 rest ih =>
    intro v ld res hks hsafe hset hfold
    rw [List.foldlM_cons] at hfold
    cases hstep : ucStep conv (v, ld) k0 with
    | error e =>
      rw [hstep] at hfold
      exact absurd hfold (by simp [Bind.bind, Except.bind])
    | ok acc1 =>
      rw [hstep] at hfold
      simp only [Bind.bind, Except.bind] at hfold
      refine ih acc1.1 acc1.2 res ?_ ?_ ?_ (by
        obtain ⟨v1, ld1⟩ := acc1
        exact hfold)
      · intro k hk
        exact ucStep_keys_mono conv v ld k0 acc1 hstep k
          (hks k (List.mem_cons_of_mem _ hk))
      · intro k hk
        exact hsafe k (List.mem_cons_of_mem _ hk)
      · intro k hk
        rcases ucStep_keys_new conv v ld k0 acc1 hstep k hk with hkv | hkk0 | hdstnew
        · rcases hset k hkv with hsett | hkks
          · by_cases hk0 : k = k0
            · subst hk0
              exact Or.inl (ucStep_settles_self conv v ld k acc1 hstep)
            · exact Or.inl (ucStep_preserves_settled conv v ld k0 acc1 k hstep hk0
                (hsafe k0 (List.mem_cons_self _ _)) hsett)
          · rcases List.mem_cons.1 hkks with rfl | hrest
            · exact Or.inl (ucStep_settles_self conv v ld k acc1 hstep)
            · exact Or.inr hrest
        · subst hkk0
          exact Or.inl (ucStep_settles_self conv v ld k acc1 hstep)
        · obtain ⟨a, b, c, dst, f, hsp, hr, hdk, rfl⟩ := hdstnew
          obtain ⟨x, y, z, hspd, hrd⟩ :=
            hsafe k0 (List.mem_cons_self _ _) a b c hsp k f hr hdk
          refine Or.inl ⟨x, y, z, hspd, ?_⟩
          intro dst' f' hr'
          rw [hrd] at hr'
          exact Option.noConfusion hr'

/-- The idempotence of `UnitConversion.apply` on a non-chaining
configuration: a second application over the same (overlapping) window
converts nothing and returns the same state and view. -/
lemma uc_apply_idempotent (st st' : UCState) (v v' : View)
    (hsafe : UCSafe st.conversions v)
    (h : UnitConversion.apply st v = .ok (st', v')) :
    UnitConversion.apply st' v' = .ok (st', v') := by
  unfold UnitConversion.apply at h
  cases hfold : (dkeys v).foldlM (ucStep st.conversions) (v, st.last_done) with
  | error e =>
    rw [hfold] at h
    exact Except.noConfusion h
  | ok r =>
    rw [hfold] at h
    have hinj := Except.ok.inj h
    have hst : ({ st with last_done := r.2 } : UCState) = st' := congrArg Prod.fst hinj
    have hv : r.1 = v' := congrArg Prod.snd hinj
    have hsett := uc_fold_invariant st.conversions (dkeys v) v st.last_done r
      (fun k hk => hk) (fun k hk => hsafe k hk) (fun _ _ => Or.inr (by assumption)) hfold
    have hconv : st'.conversions = st.conversions := by rw [← hst]
    have hld : st'.last_done = r.2 := by rw [← hst]
    unfold UnitConversion.apply
    rw [hconv, hld, ← hv]
    have hid := foldlM_ucStep_id st.conversions r.1 r.2 (dkeys r.1)
      (fun k hk => ucStep_of_settled st.conversions r.1 r.2 k hk (hsett k hk))
    simp only [hid]
    rw [← hld, ← hconv]

lemma lastRaw_cons (tv : Nat × SVal) (rest : List (Nat × SVal)) :
    (lastRaw rest).orElse (fun _ => some tv.2) = lastRaw (tv :: rest) := by
  cases rest with
  | nil => rfl
  | cons r rs =>
    have hsome : (r :: rs).getLast?.isSome := List.getLast?_isSome.2 (by simp)
    cases hx : (r :: rs).getLast? with
    | none =>
      rw [hx] at hsome
      exact absurd hsome (by simp)
    | some x =>
      show (((r :: rs).getLast?.map Prod.snd).orElse (fun _ => some tv.2)) =
        ((tv :: r :: rs).getLast?.map Prod.snd)
      rw [List.getLast?_cons_cons, hx]
      rfl

lemma aoSweepNum_skip_all (off : Int) (l : Option Nat) (s : List (Nat × SVal))
    (h : ∀ p ∈ s, tsDone l p.1 = true) :
    aoSweepNum off l s = .ok (s, l, lastRaw s) := by
  induction s with
  | nil => rfl
  | cons tv rest ih =>
    unfold aoSweepNum
    rw [if_pos (h tv (List.mem_cons_self _ _)),
      ih (fun p hp => h p (List.mem_cons_of_mem _ hp))]
    show Except.ok (tv :: rest, l, (lastRaw rest).orElse (fun _ => some tv.2)) =
      Except.ok (tv :: rest, l, lastRaw (tv :: rest))
    rw [lastRaw_cons]

lemma aoSweepTri_skip_all (dR dP dY : Int) (l : Option Nat) (s : List (Nat × SVal))
    (h : ∀ p ∈ s, tsDone l p.1 = true) :
    aoSweepTri dR dP dY l s = (s, l, lastRaw s) := by
  induction s with
  | nil => rfl
  | cons tv rest ih =>
    unfold aoSweepTri
    rw [if_pos (h tv (List.mem_cons_self _ _))]
    show (tv :: (aoSweepTri dR dP dY l rest).1, (aoSweepTri dR dP dY l rest).2.1,
      ((aoSweepTri dR dP dY l rest).2.2).orElse (fun _ => some tv.2)) = _
    rw [ih (fun p hp => h p (List.mem_cons_of_mem _ hp))]
    show (tv :: rest, l, (lastRaw rest).orElse (fun _ => some tv.2)) = _
    rw [lastRaw_cons]

lemma aoSweepNum_done_mono (off : Int) (x : Nat) :
    ∀ (s : List (Nat × SVal)) (l : Option Nat) r,
      aoSweepNum off l s = .ok r → tsDone l x = true → tsDone r.2.1 x = true := by
  intro s
  induction s with
  | nil =>
    intro l r h hx
    obtain rfl := Except.ok.inj h
    exact hx
  | cons tv rest ih =>
    intro l r h hx
    simp only [aoSweepNum] at h
    split at h
    · split at h
      · exact absurd h (by simp)
      · rename_i r0 hrec
        obtain rfl := Except.ok.inj h
        exact ih l r0 hrec hx
    · rename_i hnd
      split at h
      · split at h
        · exact absurd h (by simp)
        · rename_i r0 hrec
          obtain rfl := Except.ok.inj h
          exact ih (some tv.1) r0 hrec (tsDone_mono l tv.1 x (by simpa using hnd) hx)
      · exact absurd h (by simp)

lemma aoSweepNum_covers (off : Int) :
    ∀ (s : List (Nat × SVal)) (l : Option Nat) r,
      aoSweepNum off l s = .ok r → ∀ p ∈ r.1, tsDone r.2.1 p.1 = true := by
  intro s
  induction s with
  | nil =>
    intro l r h p hp
    obtain rfl := Except.ok.inj h
    simp at hp
  | cons tv rest ih =>
    intro l r h p hp
    simp only [aoSweepNum] at h
    split at h
    · rename_i hd
      split at h
      · exact absurd h (by simp)
      · rename_i r0 hrec
        obtain rfl := Except.ok.inj h
        rcases List.mem_cons.1 hp with rfl | hp2
        · exact aoSweepNum_done_mono off p.1 rest l r0 hrec hd
        · exact ih l r0 hrec p hp2
    · split at h
      · split at h
        · exact absurd h (by simp)
        · rename_i r0 hrec
          obtain rfl := Except.ok.inj h
          rcases List.mem_cons.1 hp with rfl | hp2
          · exact aoSweepNum_done_mono off tv.1 rest (some tv.1) r0 hrec (by simp [tsDone])
          · exact ih (some tv.1) r0 hrec p hp2
      · exact absurd h (by simp)

lemma aoSweepTri_done_mono (dR dP dY : Int) (x : Nat) :
    ∀ (s : List (Nat × SVal)) (l : Option Nat),
      tsDone l x = true → tsDone (aoSweepTri dR dP dY l s).2.1 x = true := by
  intro s
  induction s with
  | nil => intro l hx; exact hx
  | cons tv rest ih =>
    intro l hx
    unfold aoSweepTri
    by_cases hd : tsDone l tv.1 = true
    · rw [if_pos hd]
      exact ih l hx
    · rw [if_neg hd]
      cases hv : tv.2 with
      | num n =>
        dsimp only
        exact ih (some tv.1) (tsDone_mono l tv.1 x (by simpa using hd) hx)
      | tri a b c =>
        dsimp only
        exact ih (some tv.1) (tsDone_mono l tv.1 x (by simpa using hd) hx)

lemma aoSweepTri_covers (dR dP dY : Int) :
    ∀ (s : List (Nat × SVal)) (l : Option Nat),
      ∀ p ∈ (aoSweepTri dR dP dY l s).1, tsDone (aoSweepTri dR dP dY l s).2.1 p.1 = true := by
  intro s
  induction s with
  | nil => intro l p hp; simp [aoSweepTri] at hp
  | cons tv rest ih =>
    intro l p hp
    rw [aoSweepTri] at hp ⊢
    by_cases hd : tsDone l tv.1 = true
    · rw [if_pos hd] at hp ⊢
      rcases List.mem_cons.1 hp with rfl | hp2
      · exact aoSweepTri_done_mono dR dP dY p.1 rest l hd
      · exact ih l p hp2
    · rw [if_neg hd] at hp ⊢
      cases hv : tv.2 with
      | num n =>
        rw [hv] at hp
        dsimp only at hp ⊢
        rcases List.mem_cons.1 hp with rfl | hp2
        · exact aoSweepTri_done_mono dR dP dY tv.1 rest (some tv.1) (by simp [tsDone])
        · exact ih (some tv.1) p hp2
      | tri a b c =>
        rw [hv] at hp
        dsimp only at hp ⊢
        rcases List.mem_cons.1 hp with rfl | hp2
        · exact aoSweepTri_done_mono dR dP dY tv.1 rest (some tv.1) (by simp [tsDone])
        · exact ih (some tv.1) p hp2

lemma aoStep_ok_cases (offsets : List (String × OffVal)) (v : View)
    (ld : List (String × Option Nat)) (lr : List (String × SVal)) (k0 : String)
    (res : View × List (String × Option Nat) × List (String × SVal))
    (h : aoStep offsets (v, ld, lr) k0 = .ok res) :
    ∃ q, aoSplitQty k0 = some q ∧
      (((dlookup offsets k0).orElse (fun _ => dlookup offsets q) = none ∧ res = (v, ld, lr)) ∨
       (∃ off, (dlookup offsets k0).orElse (fun _ => dlookup offsets q) = some off ∧
         ∃ out l2 lr2, res = (dinsert v k0 out, dinsert ld k0 l2, lr2) ∧
           ∀ p ∈ out, tsDone l2 p.1 = true)) := by
  simp only [aoStep] at h
  split at h
  · exact absurd h (by simp)
  · rename_i qty hq
    refine ⟨qty, hq, ?_⟩
    split at h
    · rename_i hoff
      exact Or.inl ⟨hoff, (Except.ok.inj h).symm⟩
    · rename_i off hoff
      cases off with
      | num d =>
        simp only at h
        split at h
        · exact absurd h (by simp)
        · rename_i r0 hrec
          exact Or.inr ⟨OffVal.num d, hoff,
            r0.1, r0.2.1, _, (Except.ok.inj h).symm, aoSweepNum_covers d _ _ r0 hrec⟩
      | tri a b c =>
        simp only at h
        exact Or.inr ⟨OffVal.tri a b c, hoff,
          _, _, _, (Except.ok.inj h).symm, aoSweepTri_covers a b c _ _⟩

/-- A settled topic's angle-offset iteration leaves the view and the
watermarks as they were; only the remembered raw values may change. -/
lemma aoStep_of_settled (offsets : List (String × OffVal)) (v : View)
    (ld : List (String × Option Nat)) (lr : List (String × SVal)) (k : String)
    (hk : k ∈ dkeys v) (hs : AOSettled offsets v ld k) :
    ∃ lr2, aoStep offsets (v, ld, lr) k = .ok (v, ld, lr2) := by
  obtain ⟨q, hq, hrule⟩ := hs
  obtain ⟨s0, hs0⟩ := Option.isSome_iff_exists.1 (dlookup_isSome_of_mem v k hk)
  cases horelse : (dlookup offsets k).orElse (fun _ => dlookup offsets q) with
  | none =>
    refine ⟨lr, ?_⟩
    simp only [aoStep, hq, horelse]
  | some off =>
    obtain ⟨l, hld, hcov⟩ := hrule off horelse
    have hcov0 : ∀ p ∈ s0, tsDone l p.1 = true := by
      rw [hs0] at hcov
      exact hcov
    cases off with
    | num d =>
      exact ⟨_, by
        simp only [aoStep, hq, horelse, hld, hs0, option_join_some, Option.getD_some]
        simp only [aoSweepNum_skip_all d l s0 hcov0]
        rw [dinsert_eq_self v k s0 hs0, dinsert_eq_self ld k l hld]⟩
    | tri a b c =>
      exact ⟨_, by
        simp only [aoStep, hq, horelse, hld, hs0, option_join_some, Option.getD_some]
        simp only [aoSweepTri_skip_all a b c l s0 hcov0]
        rw [dinsert_eq_self v k s0 hs0, dinsert_eq_self ld k l hld]⟩

/-- After a successful angle-offset iteration, the topic just processed is
settled. -/
lemma aoStep_settles_self (offsets : List (String × OffVal)) (v : View)
    (ld : List (String × Option Nat)) (lr : List (String × SVal)) (k : String)
    (res : View × List (String × Option Nat) × List (String × SVal))
    (h : aoStep offsets (v, ld, lr) k = .ok res) :
    AOSettled offsets res.1 res.2.1 k := by
  obtain ⟨q, hq, hcases⟩ := aoStep_ok_cases offsets v ld lr k res h
  refine ⟨q, hq, ?_⟩
  rcases hcases with ⟨hnone, hres⟩ | ⟨off, hsome, out, l2, lr2, hres, hcov⟩
  · subst hres
    intro off hoff
    rw [hnone] at hoff
    exact Option.noConfusion hoff
  · subst hres
    intro off' hoff'
    dsimp only
    refine ⟨l2, dlookup_dinsert_self _ _ _, ?_⟩
    rw [dlookup_dinsert_self, Option.getD_some]
    exact hcov

/-- Settledness of other topics survives one angle-offset iteration. -/
lemma aoStep_preserves_settled (offsets : List (String × OffVal)) (v : View)
    (ld : List (String × Option Nat)) (lr : List (String × SVal)) (k0 : String)
    (res : View × List (String × Option Nat) × List (String × SVal)) (j : String)
    (h : aoStep offsets (v, ld, lr) k0 = .ok res) (hjk : j ≠ k0)
    (hs : AOSettled offsets v ld j) : AOSettled offsets res.1 res.2.1 j := by
  obtain ⟨q, hq, hcases⟩ := aoStep_ok_cases offsets v ld lr k0 res h
  obtain ⟨qj, hqj, hrulej⟩ := hs
  refine ⟨qj, hqj, ?_⟩
  rcases hcases with ⟨hnone, hres⟩ | ⟨off, hsome, out, l2, lr2, hres, hcov⟩ <;> subst hres
  · exact hrulej
  · intro off' hoff'
    obtain ⟨l, hld, hcov2⟩ := hrulej off' hoff'
    dsimp only
    refine ⟨l, ?_, ?_⟩
    · rw [dlookup_dinsert_ne ld k0 j _ hjk]
      exact hld
    · rw [dlookup_dinsert_ne v k0 j _ hjk]
      exact hcov2

lemma aoStep_keys_mono (offsets : List (String × OffVal)) (v : View)
    (ld : List (String × Option Nat)) (lr : List (String × SVal)) (k0 : String)
    (res : View × List (String × Option Nat) × List (String × SVal))
    (h : aoStep offsets (v, ld, lr) k0 = .ok res) :
    ∀ x ∈ dkeys v, x ∈ dkeys res.1 := by
  obtain ⟨q, hq, hcases⟩ := aoStep_ok_cases offsets v ld lr k0 res h
  rcases hcases with ⟨_, hres⟩ | ⟨off, _, out, l2, lr2, hres, _⟩ <;> subst hres
  · exact fun x hx => hx
  · exact fun x hx => mem_dkeys_dinsert v k0 x _ hx

lemma aoStep_keys_new (offsets : List (String × OffVal)) (v : View)
    (ld : List (String × Option Nat)) (lr : List (String × SVal)) (k0 : String)
    (res : View × List (String × Option Nat) × List (String × SVal))
    (h : aoStep offsets (v, ld, lr) k0 = .ok res) :
    ∀ x ∈ dkeys res.1, x ∈ dkeys v ∨ x = k0 := by
  obtain ⟨q, hq, hcases⟩ := aoStep_ok_cases offsets v ld lr k0 res h
  rcases hcases with ⟨_, hres⟩ | ⟨off, _, out, l2, lr2, hres, _⟩ <;> subst hres
  · exact fun x hx => Or.inl hx
  · exact fun x hx => mem_dkeys_of_dinsert _ _ _ _ hx

/-- The per-topic invariant carried through the first angle-offset
application: every key of the resulting view is settled. -/
lemma ao_fold_invariant (offsets : List (String × OffVal)) :
    ∀ (ks : List String) (v : View) (ld : List (String × Option Nat))
      (lr : List (String × SVal))
      (res : View × List (String × Option Nat) × List (String × SVal)),
      (∀ k ∈ ks, k ∈ dkeys v) →
      (∀ k ∈ dkeys v, AOSettled offsets v ld k ∨ k ∈ ks) →
      ks.foldlM (aoStep offsets) (v, ld, lr) = .ok res →
      ∀ k ∈ dkeys res.1, AOSettled offsets res.1 res.2.1 k := by
  intro ks
  induction ks with
  | nil =>
    intro v ld lr res _ hset hfold k hk
    have hres : Except.ok (v, ld, lr) = Except.ok res := hfold
    obtain rfl : ((v, ld, lr) :
      View × List (String × Option Nat) × List (String × SVal)) = res :=
        Except.ok.inj hres
    rcases hset k hk with hsett | habs
    · exact hsett
    · simp at habs
  | cons k0 rest ih =>
    intro v ld lr res hks hset hfold
    rw [List.foldlM_cons] at hfold
    cases hstep : aoStep offsets (v, ld, lr) k0 with
    | error e =>
      rw [hstep] at hfold
      exact absurd hfold (by simp [Bind.bind, Except.bind])
    | ok acc1 =>
      rw [hstep] at hfold
      simp only [Bind.bind, Except.bind] at hfold
      refine ih acc1.1 acc1.2.1 acc1.2.2 res ?_ ?_ (by
        obtain ⟨v1, ld1, lr1⟩ := acc1
        exact hfold)
      · intro k hk
        exact aoStep_keys_mono offsets v ld lr k0 acc1 hstep k
          (hks k (List.mem_cons_of_mem _ hk))
      · intro k hk
        rcases aoStep_keys_new offsets v ld lr k0 acc1 hstep k hk with hkv | rfl
        · rcases hset k hkv with hsett | hkks
          · by_cases hk0 : k = k0
            · subst hk0
              exact Or.inl (aoStep_settles_self offsets v ld lr k acc1 hstep)
            · exact Or.inl (aoStep_preserves_settled offsets v ld lr k0 acc1 k hstep
                hk0 hsett)
          · rcases List.mem_cons.1 hkks with rfl | hrest
            · exact Or.inl (aoStep_settles_self offsets v ld lr k acc1 hstep)
            · exact Or.inr hrest
        · exact Or.inl (aoStep_settles_self offsets v ld lr k acc1 hstep)

lemma foldlM_aoStep_id (offsets : List (String × OffVal)) (v : View)
    (ld : List (String × Option Nat)) :
    ∀ (ks : List String) (lr : List (String × SVal)),
      (∀ k ∈ ks, k ∈ dkeys v) →
      (∀ k ∈ ks, AOSettled offsets v ld k) →
      ∃ lr2, ks.foldlM (aoStep offsets) (v, ld, lr) = .ok (v, ld, lr2) := by
  intro ks
  induction ks with
  | nil =>
    intro lr _ _
    exact ⟨lr, rfl⟩
  | cons k rest ih =>
    intro lr hmem hsett
    obtain ⟨lr1, hstep⟩ := aoStep_of_settled offsets v ld lr k
      (hmem k (List.mem_cons_self _ _)) (hsett k (List.mem_cons_self _ _))
    obtain ⟨lr2, hrest⟩ := ih lr1 (fun q hq => hmem q (List.mem_cons_of_mem _ hq))
      (fun q hq => hsett q (List.mem_cons_of_mem _ hq))
    refine ⟨lr2, ?_⟩
    rw [List.foldlM_cons, hstep]
    simpa [Bind.bind, Except.bind] using hrest

/-- The idempotence of `AngleOffset.apply`: a second application over the
same (overlapping) window offsets nothing and returns the same view and
watermarks; only the remembered raw values may be refreshed. -/
lemma ao_apply_idempotent (st st' : AOState) (v v' : View)
    (h : AngleOffset.apply st v = .ok (st', v')) :
    ∃ st2, AngleOffset.apply st' v' = .ok (st2, v') ∧
      st2.offsets = st'.offsets ∧ st2.last_ts = st'.last_ts := by
  unfold AngleOffset.apply at h
  cases hfold : (dkeys v).foldlM (aoStep st.offsets) (v, st.last_ts, st.latest_raw) with
  | error e =>
    rw [hfold] at h
    exact Except.noConfusion h
  | ok r =>
    rw [hfold] at h
    have hinj := Except.ok.inj h
    have hst : ({ st with last_ts := r.2.1, latest_raw := r.2.2 } : AOState) = st' :=
      congrArg Prod.fst hinj
    have hv : r.1 = v' := congrArg Prod.snd hinj
    have hsett := ao_fold_invariant st.offsets (dkeys v) v st.last_ts st.latest_raw r
      (fun k hk => hk) (fun _ hk => Or.inr hk) hfold
    have hoff : st'.offsets = st.offsets := by rw [← hst]
    have hld : st'.last_ts = r.2.1 := by rw [← hst]
    obtain ⟨lr2, hid⟩ := foldlM_aoStep_id st.offsets r.1 r.2.1 (dkeys r.1) st'.latest_raw
      (fun k hk => hk) (fun k hk => hsett k hk)
    refine ⟨{ st' with latest_raw := lr2 }, ?_, rfl, rfl⟩
    unfold AngleOffset.apply
    rw [hoff, hld, ← hv]
    simp only [hid]

/-- C3 witness: the enforced track accepts `{"a": 1}` and then rejects
`{"b": 2}` with `ValueError`. -/
theorem add_point_field_consistency_witness :
    enforcedTrack1.add_point 2 2 [("b", .vint 2)] = .error .valueError :=
  add_point_field_consistency enforcedTrack enforcedTrack1 ["a"] 1 1 2 2
    [("a", .vint 1)] [("b", .vint 2)] rfl rfl
    (by
      intro hall
      have hb := (hall "b").1 (by simp [dkeys])
      simp [dkeys] at hb)

/-- C9 counterexample: with the `UnitConversion` class docstring's own
example table (Celsius to Kelvin, keyed and targeted by bare quantity
names) the first application succeeds and creates the bare destination key
`"temp_K"`, and the second application over the same window raises
`ValueError` when 3-way unpacking that key's split — so
`apply(apply(v)) = apply(v)` fails for `UnitConversion.apply` as claimed. -/
theorem preprocessor_apply_idempotent_cex :
    UnitConversion.apply chainUCState chainUCView = .ok (chainUCState', chainUCView') ∧
    UnitConversion.apply chainUCState' chainUCView' = .error PyErr.valueError :=
  ⟨rfl, rfl⟩

/-- C9 amended: the preprocessor `apply` operation is idempotent against
samples already processed only under a non-chaining discipline.  A
successful `UnitConversion.apply` over a non-chaining conversion table
(every rule applicable to a view topic that targets a foreign destination
topic targets one with three segments and no applicable rule of its own),
when applied a second time over the same overlapping window, converts no
sample at or below the per-topic watermark and returns the same state and
view; a second successful `AngleOffset.apply` needs no such condition and
likewise offsets nothing, returning the same view with the same offsets and
watermarks, refreshing only the remembered raw values. -/
theorem preprocessor_apply_idempotent
    (ust ust' : UCState) (v v' : View)
    (hsafe : UCSafe ust.conversions v)
    (hu : UnitConversion.apply ust v = .ok (ust', v'))
    (ast ast' : AOState) (w w' : View)
    (ha : AngleOffset.apply ast w = .ok (ast', w')) :
    UnitConversion.apply ust' v' = .ok (ust', v') ∧
    ∃ ast2, AngleOffset.apply ast' w' = .ok (ast2, w') ∧
      ast2.offsets = ast'.offsets ∧ ast2.last_ts = ast'.last_ts :=
  ⟨uc_apply_idempotent ust ust' v v' hsafe hu, ao_apply_idempotent ast ast' w w' ha⟩

/-- C9 witness: the sample unit conversion and angle offset each apply once
on their one-topic views, and the second application fixes the results. -/
theorem preprocessor_apply_idempotent_witness :
    UnitConversion.apply sampleUCState' sampleUCView' = .ok (sampleUCState', sampleUCView') ∧
    ∃ ast2, AngleOffset.apply sampleAOState' sampleAOView' = .ok (ast2, sampleAOView') ∧
      ast2.offsets = sampleAOState'.offsets ∧ ast2.last_ts = sampleAOState'.last_ts :=
  preprocessor_apply_idempotent sampleUCState sampleUCState' sampleUCView sampleUCView'
    (by
      intro k hk a b c hsp dst f hr hdk
      have hk' : k = "rm2/wind/speed" := by simpa [sampleUCView, dkeys] using hk
      subst hk'
      have hsp0 : pySplit '/' "rm2/wind/speed" = ["rm2", "wind", "speed"] := rfl
      rw [hsp0] at hsp
      injection hsp with h1 h2
      injection h2 with h2 h3
      injection h3 with h3 _
      subst h3
      have hr0 : ucRule sampleUCState.conversions "rm2/wind/speed" "speed" =
          some ("rm2/wind/speed",
            fun s => match s with | .num n => some (.num (1000 * n)) | _ => none) := rfl
      rw [hr0] at hr
      exact absurd (congrArg Prod.fst (Option.some.inj hr)).symm hdk)
    rfl sampleAOState sampleAOState' sampleAOView sampleAOView' rfl

end Mothics
